import Mathlib

/-!
Verification of the eval orchestration core of mini-llm-prophet
(`miniprophet/eval/runner.py`, `miniprophet/eval/agent_runtime.py`,
`miniprophet/eval/cli.py`).

The Python code is shallowly embedded: pure helpers become Lean functions,
float costs become rationals, exceptions become an explicit value type, and
the thread-pool orchestration becomes a small-step transition system over an
explicit shared state, driven by an arbitrary interleaving schedule.
-/

/-! ## String helpers

Python string operations used by the failure classifiers.  `strLower` models
`str.lower` (the classifier tokens are ASCII), `containsSub` models the
`needle in haystack` substring test. -/

/-- Model of Python `str.lower` (ASCII case folding). -/
def strLower (s : String) : String :=
  String.mk (s.data.map Char.toLower)

/-- Model of the Python substring test `needle in hay`. -/
def containsSub (needle hay : String) : Bool :=
  (List.range (hay.data.length + 1)).any fun i => needle.data.isPrefixOf (hay.data.drop i)

/-! ## Python JSON values

A summary document read back from disk is an arbitrary decoded JSON value;
`PyVal` models the values `json.loads` can produce. -/

/-- Decoded JSON values as produced by `json.loads`.  Arrays and objects are
encoded with explicit cons spines (`arrCons`/`objCons`) so that equality is
derivable and kernel-computable. -/
inductive PyVal where
  | null
  | bool (b : Bool)
  | int (n : ℤ)
  | float (q : ℚ)
  | str (s : String)
  | arrNil
  | arrCons (head tail : PyVal)
  | objNil
  | objCons (key : String) (value rest : PyVal)
deriving DecidableEq

/-- Whether a decoded value is a JSON object (a Python `dict`). -/
def PyVal.isObj : PyVal → Bool
  | .objNil => true
  | .objCons _ _ _ => true
  | _ => false

/-- Whether a decoded value is a JSON array (a Python `list`). -/
def PyVal.isArr : PyVal → Bool
  | .arrNil => true
  | .arrCons _ _ => true
  | _ => false

/-- Python `d.get(key)` on a decoded JSON object spine. -/
def objGet (key : String) : PyVal → Option PyVal
  | .objCons k v rest => if k = key then some v else objGet key rest
  | _ => none

/-- Python truthiness of a decoded value (`bool(v)`). -/
def pyTruthy : PyVal → Bool
  | .null => false
  | .bool b => b
  | .int n => n != 0
  | .float q => q != 0
  | .str s => s != ""
  | .arrNil => false
  | .arrCons _ _ => true
  | .objNil => false
  | .objCons _ _ _ => true

/-- Model of the Python `str(v)` coercion applied by `RunResult.from_dict`.
Container reprs are abbreviated; the claims only exercise the string,
missing and `None` cases. -/
def pyStr : PyVal → String
  | .null => "None"
  | .bool b => if b then "True" else "False"
  | .int n => toString n
  | .float q => toString q
  | .str s => s
  | .arrNil => "[]"
  | .arrCons _ _ => "[...]"
  | .objNil => "\x7b\x7d"
  | .objCons _ _ _ => "\x7b...\x7d"

/-- Model of the Python `float(v)` coercion: numbers and booleans convert,
everything else raises (strings holding numerals are not modelled; no claim
exercises them). -/
def pyFloat : PyVal → Except String ℚ
  | .int n => .ok (n : ℚ)
  | .float q => .ok q
  | .bool b => .ok (if b then 1 else 0)
  | _ => .error "TypeError: float() argument is not a number"

/-! ## Exceptions

The runner distinguishes three exception classes by `isinstance`
(`SearchAuthError`, `SearchRateLimitError` via `RETRYABLE_EXCEPTIONS`, and
`BatchRunTimeoutError`); every other exception is only seen through its type
name and message. -/

/-- Exception class of a raised Python exception, as far as
`process_problem` can distinguish them. -/
inductive ExcType where
  | searchAuthError
  | searchRateLimitError
  | batchRunTimeoutError
  | other (typeName : String)
deriving DecidableEq

/-- Python `type(exc).__name__` for the modelled exception classes. -/
def ExcType.pyName : ExcType → String
  | .searchAuthError => "SearchAuthError"
  | .searchRateLimitError => "SearchRateLimitError"
  | .batchRunTimeoutError => "BatchRunTimeoutError"
  | .other n => n

/-- A raised exception: its class together with `str(exc)`. -/
structure PyExc where
  ty : ExcType
  msg : String
deriving DecidableEq

/-- Embedding of `runner._is_rate_limit_error`: explicit retryable type, or
a lowercased message containing `429` or `rate limit`. -/
def _is_rate_limit_error (exc : PyExc) : Bool :=
  exc.ty = .searchRateLimitError
    || containsSub "429" (strLower exc.msg)
    || containsSub "rate limit" (strLower exc.msg)

/-- Auth-token list of `runner._is_auth_error`. -/
def authTokens : List String :=
  ["authentication", "unauthorized", "permission denied", "invalid api key",
   "api key", "http 401", "status code 401"]

/-- Embedding of `runner._is_auth_error`: lowercased type name containing
`auth` or `permissiondenied`, or the lowercased message containing any auth
token. -/
def _is_auth_error (exc : PyExc) : Bool :=
  let name := strLower exc.ty.pyName
  let msg := strLower exc.msg
  containsSub "auth" name
    || containsSub "permissiondenied" name
    || authTokens.any fun token => containsSub token msg

/-- Auth pattern in the sense of the specification: the explicit auth
exception type, or a match of the `_is_auth_error` heuristic. -/
def authPattern (exc : PyExc) : Bool :=
  exc.ty = .searchAuthError || _is_auth_error exc

/-- Embedding of `runner.MAX_RETRIES`. -/
def MAX_RETRIES : ℕ := 3

/-! ## RunResult and the summary store

Embedding of `runner.RunResult`, `RunResult.from_dict` and
`runner.load_existing_summary`.  Costs are rationals standing for the float
amounts.  `from_dict` returns `Except` because `float(...)` can raise on a
non-numeric cost entry. -/

/-- Cost block of a `RunResult` (`cost = dict(model, search, total)`). -/
structure Cost where
  model : ℚ
  search : ℚ
  total : ℚ
deriving DecidableEq

/-- The zero cost block, the `RunResult` dataclass default. -/
def Cost.zero : Cost := ⟨0, 0, 0⟩

/-- Embedding of the `runner.RunResult` dataclass.  `error` keeps the raw
decoded value because `from_dict` stores `payload.get("error")` unchecked;
the runner itself only ever stores strings in it. -/
structure RunResult where
  run_id : String
  title : String
  status : String
  cost : Cost
  submission : Option PyVal
  evaluation : Option PyVal
  error : Option PyVal
  output_dir : String
deriving DecidableEq

/-- A fresh `RunResult(run_id=..., title=...)` with the dataclass defaults. -/
def RunResult.mkPending (run_id title : String) : RunResult :=
  ⟨run_id, title, "pending", Cost.zero, none, none, none, ""⟩

/-- One cost field of `from_dict`: `float(cost.get(key, 0.0) or 0.0)`. -/
def costField (key : String) (cost : PyVal) : Except String ℚ :=
  let v := (objGet key cost).getD (.float 0)
  if pyTruthy v then pyFloat v else .ok 0

/-- Embedding of `RunResult.from_dict`.  The payload is known to be a JSON
object when called.  `cost` falls back to an empty dict when missing or not
a dict. -/
def RunResult.from_dict (payload : PyVal) : Except String RunResult := do
  let cost := if ((objGet "cost" payload).getD .objNil).isObj
    then (objGet "cost" payload).getD .objNil else .objNil
  let model ← costField "model" cost
  let search ← costField "search" cost
  let total ← costField "total" cost
  .ok
    { run_id := pyStr ((objGet "run_id" payload).getD (.str ""))
      title := pyStr ((objGet "title" payload).getD (.str ""))
      status := pyStr ((objGet "status" payload).getD (.str "pending"))
      cost := ⟨model, search, total⟩
      submission := match objGet "submission" payload with
        | some .null => none
        | v => v
      evaluation := match objGet "evaluation" payload with
        | some .null => none
        | v => v
      error := match objGet "error" payload with
        | some .null => none
        | v => v
      output_dir := pyStr ((objGet "output_dir" payload).getD (.str "")) }

/-- Association-list lookup on the `run_id → RunResult` map (instance of
Python dict lookup). -/
def lookupR (k : String) : List (String × RunResult) → Option RunResult
  | [] => none
  | (k', v) :: rest => if k' = k then some v else lookupR k rest

/-- Association-list insert-or-replace mirroring Python dict assignment
`results[k] = v`: an existing key keeps its position, a new key is appended. -/
def insertR (k : String) (v : RunResult) : List (String × RunResult) → List (String × RunResult)
  | [] => [(k, v)]
  | (k', v') :: rest => if k' = k then (k, v) :: rest else (k', v') :: insertR k v rest

/-- The loop of `load_existing_summary` over the decoded `runs` array spine:
non-dict items are skipped, decoded results with an empty (falsy) `run_id`
are dropped, the rest are keyed by `run_id`. -/
def collectRuns : PyVal → List (String × RunResult) → Except String (List (String × RunResult))
  | .arrCons item rest, acc =>
    if item.isObj then
      match RunResult.from_dict item with
      | .error e => .error e
      | .ok run =>
        if run.run_id ≠ "" then collectRuns rest (insertR run.run_id run acc)
        else collectRuns rest acc
    else collectRuns rest acc
  | _, acc => .ok acc

/-- Total-cost field of `load_existing_summary`:
`float(data.get("total_cost", 0.0) or 0.0)`. -/
def summaryTotalCost (data : PyVal) : Except String ℚ :=
  let v := (objGet "total_cost" data).getD (.float 0)
  if pyTruthy v then pyFloat v else .ok 0

/-- State of the summary file on disk as seen by `load_existing_summary`. -/
inductive SummaryFile where
  | missing
  | malformed
  | parsed (data : PyVal)
deriving DecidableEq

/-- Embedding of `runner.load_existing_summary`: missing file gives empty
state; JSON that fails to decode is a validation error; a non-list `runs`
is a validation error; otherwise the run entries are collected leniently. -/
def load_existing_summary : SummaryFile → Except String (List (String × RunResult) × ℚ)
  | .missing => .ok ([], 0)
  | .malformed => .error "Invalid summary JSON"
  | .parsed data =>
    if ¬data.isObj then .error "AttributeError: data has no attribute get"
    else if ¬((objGet "runs" data).getD .arrNil).isArr then
      .error "Invalid summary format: runs must be a list"
    else
      match collectRuns ((objGet "runs" data).getD .arrNil) [] with
      | .error e => .error e
      | .ok results =>
        match summaryTotalCost data with
        | .error e => .error e
        | .ok total => .ok (results, total)

/-! ## Forecast problems and the resume filter

Embedding of `eval.types.ForecastProblem` (the fields the orchestrator
reads) and of `eval.cli._resolve_resume_state`. -/

/-- One forecasting task; only the fields the orchestration core reads are
embedded (`run_id`, `title`, `outcomes`, the mutable `retries` counter). -/
structure ForecastProblem where
  run_id : String
  title : String
  outcomes : List String
  retries : ℕ
deriving DecidableEq

/-- Embedding of `cli._resolve_resume_state`.  Resume disabled or a missing
summary seed the full problem list; a summary load failure or a summary
run_id absent from the input set aborts (`typer.Exit`); otherwise problems
whose `run_id` appears in the loaded summary are filtered out of the seeded
list. -/
def _resolve_resume_state (enabled : Bool) (file : SummaryFile)
    (problems : List ForecastProblem) :
    Except String (List ForecastProblem × List (String × RunResult) × ℚ) :=
  if ¬enabled then .ok (problems, [], 0)
  else if file = .missing then .ok (problems, [], 0)
  else
    match load_existing_summary file with
    | .error e => .error e
    | .ok (resumeResults, resumeTotal) =>
      let inputIds := problems.map (·.run_id)
      let resumeIds := resumeResults.map Prod.fst
      if resumeIds.any (fun id => ¬inputIds.contains id) then
        .error "Resume summary contains run_ids not present in the input file"
      else
        .ok (problems.filter (fun p => ¬resumeIds.contains p.run_id),
             resumeResults, resumeTotal)

/-! ## Timeout-supervised execution and process_problem

Embedding of `runner._run_agent_with_timeout` and `runner.process_problem`.
The external agent is abstracted at its contract boundary: one attempt is
described by the outcome of dependency construction, the outcome of
`agent.run`, whether the run signals completion within the timeout window,
and the cumulative costs the agent reports.  Whether the supervised run
signals `done` in time is an input (`finishesInTime`), standing for the
real-time race the code resolves with `done.wait(timeout=...)`. -/

instance {ε α : Type _} [DecidableEq ε] [DecidableEq α] : DecidableEq (Except ε α) := fun a b =>
  match a, b with
  | .error e, .error e' =>
    if h : e = e' then isTrue (by rw [h]) else isFalse (by simp [h])
  | .error _, .ok _ => isFalse (by simp)
  | .ok _, .error _ => isFalse (by simp)
  | .ok v, .ok v' =>
    if h : v = v' then isTrue (by rw [h]) else isFalse (by simp [h])

/-- The payload returned by a successful `agent.run`. -/
structure Forecast where
  exitStatus : Option String
  submission : Option PyVal
  evaluation : Option PyVal
deriving DecidableEq

/-- Result of the timeout supervisor: whether the cooperative cancellation
flag was set, and the outcome handed back to `process_problem`. -/
structure SupervisedRun where
  cancelSet : Bool
  res : Except PyExc Forecast
deriving DecidableEq

/-- Embedding of `runner._run_agent_with_timeout`: non-positive timeout runs
synchronously; otherwise a run that does not signal `done` within
`timeout_seconds` sets the cancellation flag and raises
`BatchRunTimeoutError`; a run that finishes in time hands back its own
result or first error. -/
def _run_agent_with_timeout (timeout_seconds : ℚ) (agentResult : Except PyExc Forecast)
    (finishesInTime : Bool) : SupervisedRun :=
  if timeout_seconds ≤ 0 then ⟨false, agentResult⟩
  else if ¬finishesInTime then
    ⟨true, .error ⟨.batchRunTimeoutError,
      "Eval run timed out after " ++ toString timeout_seconds ++ "s"⟩⟩
  else ⟨false, agentResult⟩

/-- Input of one `process_problem` call: the configuration and shared-state
values it reads, the pre-existing `RunResult` entry (if any), and the
abstracted attempt behaviour. -/
structure ProcInput where
  runId : String
  title : String
  max_cost : ℚ
  timeout_seconds : ℚ
  totalCost : ℚ
  retries : ℕ
  existing : Option RunResult
  construction : Except PyExc Unit
  agentResult : Except PyExc Forecast
  finishesInTime : Bool
  agentCosts : Cost
deriving DecidableEq

/-- How one `process_problem` call ends: a returned `done` flag, or a raised
`BatchFatalError` carrying its message. -/
inductive ProcExit where
  | ret (done : Bool)
  | fatal (msg : String)
deriving DecidableEq

/-- Observable effects of one `process_problem` call: how it exited, the
`RunResult` written back for the task, the task's `retries` counter and the
shared total cost afterwards, and which side effects happened. -/
structure ProcOutput where
  exit : ProcExit
  result : RunResult
  retries : ℕ
  totalCost : ℚ
  budgetSkipped : Bool
  constructionStarted : Bool
  signaledRateLimit : Bool
  cancelSet : Bool
  timedOut : Bool
  savedArtifacts : Bool
  summaryWritten : Bool
  progressEnd : Option String
deriving DecidableEq

/-- The `RunResult` as of runner.py lines 250-251: the existing entry or a
fresh pending one, with `output_dir` (re)assigned. -/
def initialResult (inp : ProcInput) : RunResult :=
  { inp.existing.getD (RunResult.mkPending inp.runId inp.title) with
    output_dir := "runs/" ++ inp.runId }

/-- The budget-gate condition of `process_problem` step 1:
`args.max_cost > 0 and state.total_cost >= args.max_cost`. -/
def budgetHit (inp : ProcInput) : Prop :=
  0 < inp.max_cost ∧ inp.max_cost ≤ inp.totalCost

instance (inp : ProcInput) : Decidable (budgetHit inp) := by
  unfold budgetHit; infer_instance

/-- Exception-classification tail of `process_problem` (its `except`
clauses), applied to an exception raised while constructing dependencies or
running the supervised agent.  `agentConstructed` tells whether the agent
factory had already returned (controls `agent.save` in the `finally`
block). -/
def classifyExc (inp : ProcInput) (exc : PyExc) (agentConstructed cancelSet : Bool) :
    ProcOutput :=
  if exc.ty = .searchAuthError then
    { exit := .fatal ("Run " ++ inp.runId ++ " failed with auth error: " ++ exc.msg)
      result := { initialResult inp with status := "auth_error", error := some (.str exc.msg) }
      retries := inp.retries
      totalCost := inp.totalCost
      budgetSkipped := false
      constructionStarted := true
      signaledRateLimit := false
      cancelSet := cancelSet
      timedOut := false
      savedArtifacts := agentConstructed
      summaryWritten := true
      progressEnd := some "auth_error" }
  else if exc.ty = .batchRunTimeoutError then
    { exit := .ret true
      result := { initialResult inp with status := exc.ty.pyName, error := some (.str exc.msg) }
      retries := inp.retries
      totalCost := inp.totalCost
      budgetSkipped := false
      constructionStarted := true
      signaledRateLimit := false
      cancelSet := cancelSet
      timedOut := true
      savedArtifacts := false
      summaryWritten := true
      progressEnd := some exc.ty.pyName }
  else if _is_rate_limit_error exc ∧ inp.retries < MAX_RETRIES then
    { exit := .ret false
      result := initialResult inp
      retries := inp.retries + 1
      totalCost := inp.totalCost
      budgetSkipped := false
      constructionStarted := true
      signaledRateLimit := true
      cancelSet := cancelSet
      timedOut := false
      savedArtifacts := agentConstructed
      summaryWritten := true
      progressEnd := some ("rate_limited (retry " ++ toString (inp.retries + 1) ++ ")") }
  else if _is_auth_error exc then
    { exit := .fatal ("Run " ++ inp.runId ++ " failed with auth error: " ++ exc.msg)
      result := { initialResult inp with status := "auth_error", error := some (.str exc.msg) }
      retries := inp.retries
      totalCost := inp.totalCost
      budgetSkipped := false
      constructionStarted := true
      signaledRateLimit := _is_rate_limit_error exc
      cancelSet := cancelSet
      timedOut := false
      savedArtifacts := agentConstructed
      summaryWritten := true
      progressEnd := some "auth_error" }
  else
    { exit := .ret true
      result := { initialResult inp with status := exc.ty.pyName, error := some (.str exc.msg) }
      retries := inp.retries
      totalCost := inp.totalCost
      budgetSkipped := false
      constructionStarted := true
      signaledRateLimit := _is_rate_limit_error exc
      cancelSet := cancelSet
      timedOut := false
      savedArtifacts := agentConstructed
      summaryWritten := true
      progressEnd := some exc.ty.pyName }

/-- Python `x or None` for an optional payload field. -/
def orNoneOpt (v : Option PyVal) : Option PyVal :=
  match v with
  | some x => if pyTruthy x then some x else none
  | none => none

/-- Embedding of `runner.process_problem`: budget gate, dependency
construction, timeout-supervised execution, exception classification,
result/cost update, and the `finally` block (artifact save when the task
did not time out; unconditional summary flush). -/
def process_problem (inp : ProcInput) : ProcOutput :=
  if budgetHit inp then
    { exit := .ret true
      result := { initialResult inp with
        status := "skipped_cost_limit"
        error := some (.str ("Total eval cost limit ($" ++
          toString inp.max_cost ++ ") reached.")) }
      retries := inp.retries
      totalCost := inp.totalCost
      budgetSkipped := true
      constructionStarted := false
      signaledRateLimit := false
      cancelSet := false
      timedOut := false
      savedArtifacts := false
      summaryWritten := true
      progressEnd := some "skipped_cost_limit" }
  else
    match inp.construction with
    | .error exc => classifyExc inp exc false false
    | .ok _ =>
      match (_run_agent_with_timeout inp.timeout_seconds inp.agentResult
          inp.finishesInTime).res with
      | .error exc =>
        classifyExc inp exc true
          (_run_agent_with_timeout inp.timeout_seconds inp.agentResult
            inp.finishesInTime).cancelSet
      | .ok forecast =>
        { exit := .ret true
          result := { initialResult inp with
            status := forecast.exitStatus.getD "unknown"
            submission := orNoneOpt forecast.submission
            evaluation := orNoneOpt forecast.evaluation
            cost := inp.agentCosts }
          retries := inp.retries
          totalCost := inp.totalCost + inp.agentCosts.total
          budgetSkipped := false
          constructionStarted := true
          signaledRateLimit := false
          cancelSet := (_run_agent_with_timeout inp.timeout_seconds inp.agentResult
            inp.finishesInTime).cancelSet
          timedOut := false
          savedArtifacts := true
          summaryWritten := true
          progressEnd := some (forecast.exitStatus.getD "unknown") }

/-- The exception `process_problem` observes during dependency construction
or timeout-supervised execution, when there is one. -/
def raisedExc (inp : ProcInput) : Option PyExc :=
  if budgetHit inp then none
  else
    match inp.construction with
    | .error exc => some exc
    | .ok _ =>
      match (_run_agent_with_timeout inp.timeout_seconds inp.agentResult
          inp.finishesInTime).res with
      | .error exc => some exc
      | .ok _ => none

/-! ## RateLimitCoordinator

Embedding of `agent_runtime.RateLimitCoordinator` state: the `_resume`
event, the default backoff, and the delays of the auto-resume timers
scheduled so far (each `threading.Timer(secs, self._resume.set)` appends
its delay). -/

/-- State of the shared pause/resume gate. -/
structure RateLimitCoordinator where
  resumeSet : Bool
  pendingResumes : List ℚ
  backoff_seconds : ℚ
deriving DecidableEq

/-- A freshly constructed coordinator: gate resumed, no timers pending
(`backoff_seconds` defaults to 60 at the call sites). -/
def RateLimitCoordinator.init (backoff_seconds : ℚ) : RateLimitCoordinator :=
  ⟨true, [], backoff_seconds⟩

/-- Embedding of `RateLimitCoordinator.signal_rate_limit`: when the gate is
resumed, clear it and schedule one auto-resume timer after the given (or
default) backoff; when already paused, do nothing. -/
def RateLimitCoordinator.signal_rate_limit (c : RateLimitCoordinator)
    (backoff_seconds : Option ℚ) : RateLimitCoordinator :=
  let secs := backoff_seconds.getD c.backoff_seconds
  if c.resumeSet then
    { c with resumeSet := false, pendingResumes := c.pendingResumes ++ [secs] }
  else c

/-! ## Orchestrator: worker pool as a transition system

Embedding of `runner.run_eval` and its nested `worker_loop` /
`_drain_pending_queue`.  Each worker is a small state machine (loop top,
task pulled, inner fatal check passed); one call of `workerStep` performs
one atomic phase of the chosen worker, and a schedule is an arbitrary
interleaving of worker indices.  `process_problem` runs as one atomic phase
(its interaction with shared state is lock-protected in the source); the
drain performed by the worker that first observes a fatal error happens in
the same phase as the fatal classification, and workers that pulled a task
before the flag was set still run it to completion, mirroring the
in-flight-tasks-finish behaviour of the pool.  The `hist` field records, in
order, every execution start, the (single) fatal-flag write, and every
drain together with the drained tasks and their result entries at drain
time. -/

/-- Observable orchestration events, in chronological order. -/
inductive OrchEvent where
  | execEvt (runId : String)
  | fatalSetEvt (msg : String)
  | drainEvt (entries : List (String × Option RunResult))
deriving DecidableEq

/-- Phase of one worker inside `worker_loop`: at the loop top, holding a
task pulled from the queue, past the inner fatal re-check and about to run
the task, or exited. -/
inductive WorkerPhase where
  | top
  | got (t : ForecastProblem)
  | running (t : ForecastProblem)
  | stopped
deriving DecidableEq

/-- The task a worker currently holds, if any. -/
def heldTask : WorkerPhase → Option ForecastProblem
  | .got t => some t
  | .running t => some t
  | _ => none

/-- All tasks currently held by workers. -/
def heldTasks (ws : List WorkerPhase) : List ForecastProblem :=
  ws.filterMap heldTask

/-- Orchestration-relevant fields of `runner.EvalRunArgs`. -/
structure EvalRunArgs where
  workers : ℕ
  max_cost : ℚ
  timeout_seconds : ℚ
  initial_results : List (String × RunResult)
  initial_total_cost : ℚ

/-- Abstracted behaviour of one execution attempt of a task (the collaborator
side of `process_problem`): construction outcome, `agent.run` outcome,
whether it signals completion within the timeout window, and the costs the
agent reports. -/
structure AttemptSpec where
  construction : Except PyExc Unit
  agentResult : Except PyExc Forecast
  finishesInTime : Bool
  agentCosts : Cost

/-- Behaviour oracle: the attempt behaviour of each task on each of its
successive executions. -/
def AgentEnv := String → ℕ → AttemptSpec

/-- Shared orchestration state (`runner.EvalRunState` plus the queue, the
worker phases and the event history). -/
structure OrchState where
  queue : List ForecastProblem
  workers : List WorkerPhase
  results : List (String × RunResult)
  totalCost : ℚ
  fatal : Option String
  hist : List OrchEvent

/-- Whether an event is the start of an execution of the given task. -/
def isExecFor (id : String) : OrchEvent → Bool
  | .execEvt id' => id' = id
  | _ => false

/-- Number of executions of a task started so far. -/
def attemptIndex (hist : List OrchEvent) (id : String) : ℕ :=
  (hist.filter (isExecFor id)).length

/-- The `ProcInput` a worker passes to `process_problem` for task `t` in
state `s`. -/
def mkProcInput (args : EvalRunArgs) (s : OrchState) (t : ForecastProblem)
    (spec : AttemptSpec) : ProcInput :=
  { runId := t.run_id, title := t.title, max_cost := args.max_cost,
    timeout_seconds := args.timeout_seconds, totalCost := s.totalCost,
    retries := t.retries, existing := lookupR t.run_id s.results,
    construction := spec.construction, agentResult := spec.agentResult,
    finishesInTime := spec.finishesInTime, agentCosts := spec.agentCosts }

/-- Outcome of the `process_problem` call a worker makes for task `t` in
state `s`. -/
def execOut (args : EvalRunArgs) (env : AgentEnv) (s : OrchState)
    (t : ForecastProblem) : ProcOutput :=
  process_problem (mkProcInput args s t (env t.run_id (attemptIndex s.hist t.run_id)))

/-- Shared-state part of an execution phase common to all outcomes: the
result entry is written back, the total cost updated, the execution
recorded. -/
def execBase (args : EvalRunArgs) (env : AgentEnv) (s : OrchState)
    (t : ForecastProblem) : OrchState :=
  { s with
    results := insertR t.run_id (execOut args env s t).result s.results
    totalCost := (execOut args env s t).totalCost
    hist := s.hist ++ [.execEvt t.run_id] }

/-- The tasks drained by `_drain_pending_queue` on a fatal error, paired
with their result entries at drain time. -/
def drainEntries (args : EvalRunArgs) (env : AgentEnv) (s : OrchState)
    (t : ForecastProblem) : List (String × Option RunResult) :=
  s.queue.map fun u =>
    (u.run_id, lookupR u.run_id (insertR t.run_id (execOut args env s t).result s.results))

/-- Execution phase of worker `i` holding task `t`: run `process_problem`,
write back the result and cost, then either loop (`done = true`), re-enqueue
the task at the back (`done = false`, no fatal flag), or — on a raised
`BatchFatalError` — perform the first-write-wins fatal-flag update, drain
the whole pending queue and exit. -/
def execStep (args : EvalRunArgs) (env : AgentEnv) (s : OrchState) (i : ℕ)
    (t : ForecastProblem) : OrchState :=
  match (execOut args env s t).exit with
  | .ret true => { execBase args env s t with workers := s.workers.set i .top }
  | .ret false =>
    if s.fatal.isSome then { execBase args env s t with workers := s.workers.set i .top }
    else
      { execBase args env s t with
        workers := s.workers.set i .top
        queue := s.queue ++ [{ t with retries := (execOut args env s t).retries }] }
  | .fatal m =>
    match s.fatal with
    | some m0 =>
      { execBase args env s t with
        workers := s.workers.set i .stopped
        fatal := some m0
        queue := []
        hist := (execBase args env s t).hist ++ [.drainEvt (drainEntries args env s t)] }
    | none =>
      { execBase args env s t with
        workers := s.workers.set i .stopped
        fatal := some m
        queue := []
        hist := (execBase args env s t).hist ++
          [.fatalSetEvt m, .drainEvt (drainEntries args env s t)] }

/-- One atomic phase of worker `i`: exit on the fatal flag or an empty
queue at the loop top, pull a task, re-check the flag after pulling, or run
the held task. -/
def workerStep (args : EvalRunArgs) (env : AgentEnv) (s : OrchState) (i : ℕ) :
    OrchState :=
  match s.workers[i]? with
  | none => s
  | some .stopped => s
  | some .top =>
    if s.fatal.isSome then { s with workers := s.workers.set i .stopped }
    else match s.queue with
      | [] => { s with workers := s.workers.set i .stopped }
      | t :: rest => { s with queue := rest, workers := s.workers.set i (.got t) }
  | some (.got t) =>
    if s.fatal.isSome then { s with workers := s.workers.set i .stopped }
    else { s with workers := s.workers.set i (.running t) }
  | some (.running t) => execStep args env s i t

/-- Initial orchestration state (`run_eval` lines 393-407): the queue is
seeded with the given problems, the results map and total cost come from
the resume seed, all workers start at the loop top. -/
def initState (args : EvalRunArgs) (problems : List ForecastProblem) : OrchState :=
  ⟨problems, List.replicate args.workers .top, args.initial_results,
   args.initial_total_cost, none, []⟩

/-- Run the worker pool under an interleaving schedule. -/
def orchRun (args : EvalRunArgs) (env : AgentEnv) (problems : List ForecastProblem)
    (sched : List ℕ) : OrchState :=
  sched.foldl (fun s i => workerStep args env s i) (initState args problems)

/-- The summary document `_write_summary` derives from the shared state. -/
structure Summary where
  total_cost : ℚ
  runs : List RunResult
deriving DecidableEq

/-- Summary snapshot of a state (`_write_summary`). -/
def summaryOf (s : OrchState) : Summary :=
  ⟨s.totalCost, s.results.map Prod.snd⟩

/-- Every worker has exited. -/
def allStopped (s : OrchState) : Prop := ∀ w ∈ s.workers, w = .stopped

/-- Embedding of `runner.run_eval` after the workers have been joined: the
final summary flush followed by either the raised fatal error or the
results map (lines 473-478).  The pair makes the final write visible next
to the returned/raised outcome. -/
def run_eval (args : EvalRunArgs) (env : AgentEnv) (problems : List ForecastProblem)
    (sched : List ℕ) : Summary × Except String (List (String × RunResult)) :=
  let final := orchRun args env problems sched
  (summaryOf final,
   match final.fatal with
   | some m => .error m
   | none => .ok final.results)

instance (s : OrchState) : Decidable (allStopped s) := by
  unfold allStopped; infer_instance

/-! ## Basic lemmas about the result map and worker lists -/

/-- Keys (run_ids) of a results map. -/
def keysR (l : List (String × RunResult)) : List String := l.map Prod.fst

/-- Sum of the `cost.total` fields over a results map. -/
def sumCosts (l : List (String × RunResult)) : ℚ :=
  (l.map (fun p => p.2.cost.total)).sum

/-- Number of tasks with the given run_id in a task list. -/
def idCount (id : String) (ts : List ForecastProblem) : ℕ :=
  (ts.filter (fun t => t.run_id = id)).length

/-- Number of copies of a task id across the queue and the workers' hands. -/
def locCount (s : OrchState) (id : String) : ℕ :=
  idCount id s.queue + idCount id (heldTasks s.workers)

/-- Each task id occurs at most once across the queue and the workers
(the seeded problems have unique run_ids and tasks only move). -/
def LocOk (s : OrchState) : Prop := ∀ id, locCount s id ≤ 1

theorem keysR_cons (a : String × RunResult) (l : List (String × RunResult)) :
    keysR (a :: l) = a.1 :: keysR l := rfl

theorem lookupR_insertR (k k' : String) (v : RunResult) (l : List (String × RunResult)) :
    lookupR k' (insertR k v l) = if k = k' then some v else lookupR k' l := by
  induction l with
  | nil => simp [insertR, lookupR]
  | cons a rest ih =>
    obtain ⟨a1, a2⟩ := a
    by_cases ha : a1 = k
    · subst ha
      rw [insertR, if_pos rfl]
      by_cases h : a1 = k'
      · simp [lookupR, h]
      · simp [lookupR, h]
    · rw [insertR, if_neg ha]
      by_cases h : a1 = k'
      · have hk : ¬k = k' := fun he => ha (by rw [h, ← he])
        simp [lookupR, h, hk]
      · simp only [lookupR, if_neg h]
        exact ih

theorem keysR_insertR (k : String) (v : RunResult) (l : List (String × RunResult)) :
    keysR (insertR k v l) = if k ∈ keysR l then keysR l else keysR l ++ [k] := by
  induction l with
  | nil => simp [insertR, keysR]
  | cons a rest ih =>
    obtain ⟨a1, a2⟩ := a
    by_cases ha : a1 = k
    · subst ha
      rw [insertR, if_pos rfl]
      simp [keysR]
    · rw [insertR, if_neg ha]
      have hmem : (k ∈ keysR ((a1, a2) :: rest)) ↔ k ∈ keysR rest := by
        rw [keysR_cons]
        simp only [List.mem_cons]
        constructor
        · rintro (he | hm)
          · exact absurd he.symm ha
          · exact hm
        · exact Or.inr
      by_cases hm : k ∈ keysR rest
      · rw [if_pos (hmem.mpr hm), keysR_cons, keysR_cons, ih, if_pos hm]
      · rw [if_neg (fun hk => hm (hmem.mp hk)), keysR_cons, keysR_cons, ih, if_neg hm]
        simp

theorem lookupR_eq_none_iff (k : String) (l : List (String × RunResult)) :
    lookupR k l = none ↔ k ∉ keysR l := by
  induction l with
  | nil => simp [lookupR, keysR]
  | cons a rest ih =>
    obtain ⟨a1, a2⟩ := a
    by_cases ha : a1 = k
    · subst ha; simp [lookupR, keysR]
    · rw [lookupR, if_neg ha, keysR_cons]
      simp only [List.mem_cons]
      constructor
      · intro h hmem
        rcases hmem with he | hm
        · exact ha he.symm
        · exact (ih.mp h) hm
      · intro h
        exact ih.mpr fun hm => h (Or.inr hm)

theorem nodup_keysR_insertR (k : String) (v : RunResult) (l : List (String × RunResult))
    (h : (keysR l).Nodup) : (keysR (insertR k v l)).Nodup := by
  rw [keysR_insertR]
  by_cases hm : k ∈ keysR l
  · rw [if_pos hm]; exact h
  · rw [if_neg hm, List.nodup_append]
    refine ⟨h, List.nodup_singleton k, ?_⟩
    intro a ha hb
    rw [List.mem_singleton.mp hb] at ha
    exact hm ha

theorem mem_keysR_insertR (k id : String) (v : RunResult) (l : List (String × RunResult)) :
    id ∈ keysR (insertR k v l) ↔ id ∈ keysR l ∨ id = k := by
  rw [keysR_insertR]
  by_cases hm : k ∈ keysR l
  · rw [if_pos hm]
    constructor
    · exact Or.inl
    · rintro (h | h)
      · exact h
      · rw [h]; exact hm
  · rw [if_neg hm]
    simp

theorem mem_insertR (x : String × RunResult) (k : String) (v : RunResult)
    (l : List (String × RunResult)) (h : x ∈ insertR k v l) : x = (k, v) ∨ x ∈ l := by
  induction l with
  | nil => simpa [insertR] using h
  | cons a rest ih =>
    obtain ⟨a1, a2⟩ := a
    by_cases ha : a1 = k
    · rw [insertR, if_pos ha] at h
      rcases List.mem_cons.mp h with h | h
      · exact .inl h
      · exact .inr (List.mem_cons.mpr (.inr h))
    · rw [insertR, if_neg ha] at h
      rcases List.mem_cons.mp h with h | h
      · exact .inr (List.mem_cons.mpr (.inl h))
      · rcases ih h with h | h
        · exact .inl h
        · exact .inr (List.mem_cons.mpr (.inr h))

theorem sumCosts_insertR_none (k : String) (v : RunResult) (l : List (String × RunResult))
    (h : lookupR k l = none) :
    sumCosts (insertR k v l) = sumCosts l + v.cost.total := by
  induction l with
  | nil => simp [insertR, sumCosts]
  | cons a rest ih =>
    obtain ⟨a1, a2⟩ := a
    by_cases ha : a1 = k
    · rw [lookupR, if_pos ha] at h
      exact absurd h (by simp)
    · rw [lookupR, if_neg ha] at h
      rw [insertR, if_neg ha]
      simp only [sumCosts, List.map_cons, List.sum_cons] at *
      rw [ih h]
      ring

theorem sumCosts_insertR_some (k : String) (v e : RunResult) (l : List (String × RunResult))
    (h : lookupR k l = some e) :
    sumCosts (insertR k v l) + e.cost.total = sumCosts l + v.cost.total := by
  induction l with
  | nil => exact absurd h (by simp [lookupR])
  | cons a rest ih =>
    obtain ⟨a1, a2⟩ := a
    by_cases ha : a1 = k
    · rw [lookupR, if_pos ha] at h
      have he : a2 = e := by simpa using h
      subst he
      rw [insertR, if_pos ha]
      simp only [sumCosts, List.map_cons, List.sum_cons]
      ring
    · rw [lookupR, if_neg ha] at h
      rw [insertR, if_neg ha]
      simp only [sumCosts, List.map_cons, List.sum_cons] at *
      have := ih h
      linarith

theorem heldTasks_append (a b : List WorkerPhase) :
    heldTasks (a ++ b) = heldTasks a ++ heldTasks b := by
  simp [heldTasks]

theorem idCount_append (id : String) (a b : List ForecastProblem) :
    idCount id (a ++ b) = idCount id a + idCount id b := by
  simp [idCount]

theorem idCount_cons (id : String) (t : ForecastProblem) (ts : List ForecastProblem) :
    idCount id (t :: ts) = (if t.run_id = id then 1 else 0) + idCount id ts := by
  by_cases h : t.run_id = id <;> simp [idCount, h] <;> try omega

/-- Decomposition of a worker list at a valid index: the list splits around
the worker, and `set` replaces exactly that position. -/
theorem workers_decomp (ws : List WorkerPhase) (i : ℕ) (w : WorkerPhase)
    (h : ws[i]? = some w) :
    ∃ L R, ws = L ++ w :: R ∧ ∀ ph, ws.set i ph = L ++ ph :: R := by
  induction ws generalizing i with
  | nil => simp at h
  | cons a as ih =>
    cases i with
    | zero =>
      simp at h
      exact ⟨[], as, by simp [h], fun ph => by simp⟩
    | succ n =>
      simp at h
      obtain ⟨L, R, h1, h2⟩ := ih n h
      exact ⟨a :: L, R, by simp [h1], fun ph => by simp [h2 ph]⟩

/-! ## Characterization of process_problem

Branch lemmas relating `process_problem` to the budget gate, the raised
exception (when any) and the success payload. -/

theorem pp_budget (inp : ProcInput) (hb : budgetHit inp) :
    process_problem inp =
      { exit := .ret true
        result := { initialResult inp with
          status := "skipped_cost_limit"
          error := some (.str ("Total eval cost limit ($" ++
            toString inp.max_cost ++ ") reached.")) }
        retries := inp.retries
        totalCost := inp.totalCost
        budgetSkipped := true
        constructionStarted := false
        signaledRateLimit := false
        cancelSet := false
        timedOut := false
        savedArtifacts := false
        summaryWritten := true
        progressEnd := some "skipped_cost_limit" } := by
  unfold process_problem
  rw [if_pos hb]

theorem pp_eq_classify (inp : ProcInput) (exc : PyExc) (hexc : raisedExc inp = some exc) :
    (inp.construction = .error exc ∧
      process_problem inp = classifyExc inp exc false false) ∨
    (inp.construction = .ok () ∧
      process_problem inp = classifyExc inp exc true
        (_run_agent_with_timeout inp.timeout_seconds inp.agentResult
          inp.finishesInTime).cancelSet ∧
      (_run_agent_with_timeout inp.timeout_seconds inp.agentResult
        inp.finishesInTime).res = .error exc) := by
  unfold raisedExc at hexc
  by_cases hb : budgetHit inp
  · rw [if_pos hb] at hexc
    simp at hexc
  · rw [if_neg hb] at hexc
    cases hc : inp.construction with
    | error e =>
      rw [hc] at hexc
      simp at hexc
      subst hexc
      left
      refine ⟨rfl, ?_⟩
      unfold process_problem
      rw [if_neg hb]
      simp only [hc]
    | ok u =>
      cases u
      rw [hc] at hexc
      cases hr : (_run_agent_with_timeout inp.timeout_seconds inp.agentResult
          inp.finishesInTime).res with
      | ok f => rw [hr] at hexc; simp at hexc
      | error e =>
        rw [hr] at hexc
        simp at hexc
        subst hexc
        right
        refine ⟨rfl, ?_, rfl⟩
        unfold process_problem
        rw [if_neg hb]
        simp only [hc, hr]

theorem pp_success (inp : ProcInput) (f : Forecast) (hb : ¬budgetHit inp)
    (hc : inp.construction = .ok ())
    (hr : (_run_agent_with_timeout inp.timeout_seconds inp.agentResult
      inp.finishesInTime).res = .ok f) :
    process_problem inp =
      { exit := .ret true
        result := { initialResult inp with
          status := f.exitStatus.getD "unknown"
          submission := orNoneOpt f.submission
          evaluation := orNoneOpt f.evaluation
          cost := inp.agentCosts }
        retries := inp.retries
        totalCost := inp.totalCost + inp.agentCosts.total
        budgetSkipped := false
        constructionStarted := true
        signaledRateLimit := false
        cancelSet := (_run_agent_with_timeout inp.timeout_seconds inp.agentResult
          inp.finishesInTime).cancelSet
        timedOut := false
        savedArtifacts := true
        summaryWritten := true
        progressEnd := some (f.exitStatus.getD "unknown") } := by
  unfold process_problem
  rw [if_neg hb, hc]
  simp only [hr]

theorem raisedExc_cases (inp : ProcInput) :
    budgetHit inp ∨ (∃ exc, raisedExc inp = some exc) ∨
    (¬budgetHit inp ∧ inp.construction = .ok () ∧
      ∃ f, (_run_agent_with_timeout inp.timeout_seconds inp.agentResult
        inp.finishesInTime).res = .ok f) := by
  by_cases hb : budgetHit inp
  · exact .inl hb
  · cases hc : inp.construction with
    | error e =>
      refine .inr (.inl ⟨e, ?_⟩)
      unfold raisedExc
      rw [if_neg hb, hc]
    | ok u =>
      cases u
      cases hr : (_run_agent_with_timeout inp.timeout_seconds inp.agentResult
          inp.finishesInTime).res with
      | error e =>
        refine .inr (.inl ⟨e, ?_⟩)
        unfold raisedExc
        rw [if_neg hb]
        simp only [hc, hr]
      | ok f => exact .inr (.inr ⟨hb, rfl, f, rfl⟩)

/-- Retry branch of the exception classifier: a rate-limit-classified error
with retries remaining does not touch the `RunResult`, increments the retry
counter, signals the coordinator and returns `done = false`. -/
theorem classifyExc_retry (inp : ProcInput) (exc : PyExc) (ac cs : Bool)
    (h1 : exc.ty ≠ .searchAuthError) (h2 : exc.ty ≠ .batchRunTimeoutError)
    (hrl : _is_rate_limit_error exc = true) (hlt : inp.retries < MAX_RETRIES) :
    classifyExc inp exc ac cs =
      { exit := .ret false
        result := initialResult inp
        retries := inp.retries + 1
        totalCost := inp.totalCost
        budgetSkipped := false
        constructionStarted := true
        signaledRateLimit := true
        cancelSet := cs
        timedOut := false
        savedArtifacts := ac
        summaryWritten := true
        progressEnd := some ("rate_limited (retry " ++ toString (inp.retries + 1) ++ ")") } := by
  unfold classifyExc
  rw [if_neg h1, if_neg h2, if_pos ⟨hrl, hlt⟩]

/-- Timeout branch of the exception classifier: the explicit timeout type is
recorded under its class name, the task is done, artifacts are not saved. -/
theorem classifyExc_timeout (inp : ProcInput) (exc : PyExc) (ac cs : Bool)
    (h1 : exc.ty ≠ .searchAuthError) (h2 : exc.ty = .batchRunTimeoutError) :
    classifyExc inp exc ac cs =
      { exit := .ret true
        result := { initialResult inp with
          status := exc.ty.pyName
          error := some (.str exc.msg) }
        retries := inp.retries
        totalCost := inp.totalCost
        budgetSkipped := false
        constructionStarted := true
        signaledRateLimit := false
        cancelSet := cs
        timedOut := true
        savedArtifacts := false
        summaryWritten := true
        progressEnd := some exc.ty.pyName } := by
  unfold classifyExc
  rw [if_neg h1, if_pos h2]

/-- Auth branches of the exception classifier: both the explicit auth type
and the auth-message fallback record `auth_error` and raise the fatal
error. -/
theorem classifyExc_auth (inp : ProcInput) (exc : PyExc) (ac cs : Bool)
    (h : exc.ty = .searchAuthError ∨
      (exc.ty ≠ .searchAuthError ∧ exc.ty ≠ .batchRunTimeoutError ∧
        ¬(_is_rate_limit_error exc = true ∧ inp.retries < MAX_RETRIES) ∧
        _is_auth_error exc = true)) :
    (classifyExc inp exc ac cs).result.status = "auth_error" ∧
    (classifyExc inp exc ac cs).exit =
      .fatal ("Run " ++ inp.runId ++ " failed with auth error: " ++ exc.msg) ∧
    (classifyExc inp exc ac cs).result.error = some (.str exc.msg) := by
  unfold classifyExc
  rcases h with h | ⟨h1, h2, h3, h4⟩
  · rw [if_pos h]
    exact ⟨rfl, rfl, rfl⟩
  · rw [if_neg h1, if_neg h2, if_neg h3, if_pos h4]
    exact ⟨rfl, rfl, rfl⟩

/-- Generic-permanent branch of the exception classifier. -/
theorem classifyExc_generic (inp : ProcInput) (exc : PyExc) (ac cs : Bool)
    (h1 : exc.ty ≠ .searchAuthError) (h2 : exc.ty ≠ .batchRunTimeoutError)
    (h3 : ¬(_is_rate_limit_error exc = true ∧ inp.retries < MAX_RETRIES))
    (h4 : _is_auth_error exc = false) :
    classifyExc inp exc ac cs =
      { exit := .ret true
        result := { initialResult inp with
          status := exc.ty.pyName
          error := some (.str exc.msg) }
        retries := inp.retries
        totalCost := inp.totalCost
        budgetSkipped := false
        constructionStarted := true
        signaledRateLimit := _is_rate_limit_error exc
        cancelSet := cs
        timedOut := false
        savedArtifacts := ac
        summaryWritten := true
        progressEnd := some exc.ty.pyName } := by
  unfold classifyExc
  rw [if_neg h1, if_neg h2, if_neg h3, if_neg (by simp [h4])]

/-- On every branch `process_problem` leaves the entry `run_id` unchanged. -/
theorem pp_result_run_id (inp : ProcInput) :
    (process_problem inp).result.run_id = (initialResult inp).run_id := by
  rcases raisedExc_cases inp with hb | ⟨exc, hexc⟩ | ⟨hb, hc, f, hr⟩
  · rw [pp_budget inp hb]
  · rcases pp_eq_classify inp exc hexc with ⟨_, hpp⟩ | ⟨_, hpp, _⟩ <;>
    · rw [hpp]
      unfold classifyExc
      split_ifs <;> rfl
  · rw [pp_success inp f hb hc hr]

/-- A `done = false` return happens only on the retry branch: the
`RunResult` entry and the shared cost are untouched and the retry counter
was incremented. -/
theorem pp_ret_false_char (inp : ProcInput)
    (h : (process_problem inp).exit = .ret false) :
    (process_problem inp).result = initialResult inp ∧
    (process_problem inp).totalCost = inp.totalCost ∧
    (process_problem inp).retries = inp.retries + 1 := by
  rcases raisedExc_cases inp with hb | ⟨exc, hexc⟩ | ⟨hb, hc, f, hr⟩
  · rw [pp_budget inp hb] at h
    simp at h
  · rcases pp_eq_classify inp exc hexc with ⟨_, hpp⟩ | ⟨_, hpp, _⟩ <;>
    · rw [hpp] at h ⊢
      unfold classifyExc at h ⊢
      split_ifs at h ⊢ <;> first
        | exact ⟨rfl, rfl, rfl⟩
        | simp at h
  · rw [pp_success inp f hb hc hr] at h
    simp at h

/-- Shared-cost bookkeeping of `process_problem`: either nothing is added
and the entry cost is unchanged (skip, failure, retry), or the added amount
is exactly the entry cost written back (success). -/
theorem pp_cost_char (inp : ProcInput) :
    ((process_problem inp).totalCost = inp.totalCost ∧
      (process_problem inp).result.cost = (initialResult inp).cost) ∨
    (process_problem inp).totalCost =
      inp.totalCost + (process_problem inp).result.cost.total := by
  rcases raisedExc_cases inp with hb | ⟨exc, hexc⟩ | ⟨hb, hc, f, hr⟩
  · rw [pp_budget inp hb]
    exact .inl ⟨rfl, rfl⟩
  · rcases pp_eq_classify inp exc hexc with ⟨_, hpp⟩ | ⟨_, hpp, _⟩ <;>
    · rw [hpp]
      unfold classifyExc
      split_ifs <;> exact .inl ⟨rfl, rfl⟩
  · rw [pp_success inp f hb hc hr]
    exact .inr rfl

/-- Helper: the budget-skip flag is set exactly when the gate condition held
on entry. -/
theorem pp_budgetSkipped_iff (inp : ProcInput) :
    (process_problem inp).budgetSkipped = true ↔ budgetHit inp := by
  rcases raisedExc_cases inp with hb | ⟨exc, hexc⟩ | ⟨hb, hc, f, hr⟩
  · rw [pp_budget inp hb]
    simpa using hb
  · have hb : ¬budgetHit inp := by
      intro hbb
      unfold raisedExc at hexc
      rw [if_pos hbb] at hexc
      simp at hexc
    rcases pp_eq_classify inp exc hexc with ⟨_, hpp⟩ | ⟨_, hpp, _⟩ <;>
    · rw [hpp]
      unfold classifyExc
      split_ifs <;> simp [hb]
  · rw [pp_success inp f hb hc hr]
    simp [hb]

/-- Helper: dependency construction starts exactly when the budget gate did
not skip the task. -/
theorem pp_constructionStarted_iff (inp : ProcInput) :
    (process_problem inp).constructionStarted = !(process_problem inp).budgetSkipped := by
  rcases raisedExc_cases inp with hb | ⟨exc, hexc⟩ | ⟨hb, hc, f, hr⟩
  · rw [pp_budget inp hb]
    rfl
  · rcases pp_eq_classify inp exc hexc with ⟨_, hpp⟩ | ⟨_, hpp, _⟩ <;>
    · rw [hpp]
      unfold classifyExc
      split_ifs <;> rfl
  · rw [pp_success inp f hb hc hr]
    rfl

/-! ## Claim theorems: the task executor -/

/-- C1 (counterexample): an exception whose message matches both the auth
pattern and the rate-limit pattern, raised while the task still has retries
remaining, is classified as rate-limited — the `RunResult` stays `pending`,
nothing fatal is raised — so auth-pattern classification does not have
priority over rate-limit classification for message-matched errors. -/
def c1CexExc : PyExc := ⟨.other "RuntimeError", "HTTP 429: authentication temporarily rate limited"⟩

def c1CexInput : ProcInput :=
  { runId := "r1", title := "T", max_cost := 0, timeout_seconds := 0, totalCost := 0,
    retries := 0, existing := none, construction := .ok (),
    agentResult := .error c1CexExc, finishesInTime := true, agentCosts := Cost.zero }

theorem auth_pattern_priority_counterexample :
    authPattern c1CexExc = true ∧
    _is_rate_limit_error c1CexExc = true ∧
    raisedExc c1CexInput = some c1CexExc ∧
    c1CexInput.retries < MAX_RETRIES ∧
    (process_problem c1CexInput).result.status = "pending" ∧
    (process_problem c1CexInput).result.status ≠ "auth_error" ∧
    (process_problem c1CexInput).exit = .ret false := by
  refine ⟨by decide, by decide, by decide, by decide, by decide, by decide, by decide⟩

/-- C1 (amended): for an exception raised during dependency construction or
timeout-supervised execution that matches the auth pattern,
`process_problem` records `auth_error` and re-raises it as a fatal error —
provided it is the explicit auth exception type (which always wins), or it
is not the explicit timeout type and the rate-limit retry branch does not
apply (no rate-limit match, or retries exhausted).  A message-matched auth
error that also matches the rate-limit pattern with retries remaining is
retried instead. -/
theorem auth_pattern_fatal (inp : ProcInput) (exc : PyExc)
    (hexc : raisedExc inp = some exc)
    (hauth : authPattern exc = true)
    (hprio : exc.ty = .searchAuthError ∨
      (exc.ty ≠ .batchRunTimeoutError ∧
        ¬(_is_rate_limit_error exc = true ∧ inp.retries < MAX_RETRIES))) :
    (process_problem inp).result.status = "auth_error" ∧
    (process_problem inp).exit =
      .fatal ("Run " ++ inp.runId ++ " failed with auth error: " ++ exc.msg) ∧
    (process_problem inp).result.error = some (.str exc.msg) := by
  rcases pp_eq_classify inp exc hexc with ⟨_, hpp⟩ | ⟨_, hpp, _⟩ <;>
  · rw [hpp]
    apply classifyExc_auth
    rcases hprio with h | ⟨h2, h3⟩
    · exact .inl h
    · by_cases h1 : exc.ty = .searchAuthError
      · exact .inl h1
      · refine .inr ⟨h1, h2, h3, ?_⟩
        unfold authPattern at hauth
        simpa [h1] using hauth

def c1WitInput : ProcInput :=
  { runId := "r9", title := "T", max_cost := 0, timeout_seconds := 0, totalCost := 0,
    retries := 0, existing := none,
    construction := .error ⟨.searchAuthError, "invalid api key"⟩,
    agentResult := .ok ⟨some "submitted", none, none⟩, finishesInTime := true,
    agentCosts := Cost.zero }

theorem auth_pattern_fatal_witness :
    raisedExc c1WitInput = some ⟨.searchAuthError, "invalid api key"⟩ ∧
    (process_problem c1WitInput).result.status = "auth_error" ∧
    (process_problem c1WitInput).exit =
      .fatal "Run r9 failed with auth error: invalid api key" :=
  ⟨by decide,
   (auth_pattern_fatal c1WitInput ⟨.searchAuthError, "invalid api key"⟩
      (by decide) (by decide) (.inl rfl)).1,
   by
    have h := (auth_pattern_fatal c1WitInput ⟨.searchAuthError, "invalid api key"⟩
      (by decide) (by decide) (.inl rfl)).2.1
    simpa using h⟩

/-- C3 (counterexample): a rate-limit-classified error with retries
remaining is re-enqueued, but the status `rate_limited (retry 1)` is only
reported to the progress reporter — the task's `RunResult` still reads
`pending`, so the claim that the status is recorded on the `RunResult` is
false. -/
def c3CexInput : ProcInput :=
  { runId := "r1", title := "T", max_cost := 0, timeout_seconds := 0, totalCost := 0,
    retries := 0, existing := none, construction := .ok (),
    agentResult := .error ⟨.other "RuntimeError", "HTTP 429 Too Many Requests"⟩,
    finishesInTime := true, agentCosts := Cost.zero }

theorem rate_limit_status_counterexample :
    _is_rate_limit_error ⟨.other "RuntimeError", "HTTP 429 Too Many Requests"⟩ = true ∧
    (process_problem c3CexInput).exit = .ret false ∧
    (process_problem c3CexInput).retries = 1 ∧
    (process_problem c3CexInput).signaledRateLimit = true ∧
    (process_problem c3CexInput).progressEnd = some "rate_limited (retry 1)" ∧
    (process_problem c3CexInput).result.status = "pending" ∧
    (process_problem c3CexInput).result.status ≠ "rate_limited (retry 1)" := by
  refine ⟨by decide, by decide, by decide, by decide, by decide, by decide, by decide⟩

/-- C3 (amended): for an exception classified as rate-limited that is not
the explicit auth or timeout type, with `task.retries < MAX_RETRIES`,
`process_problem` signals the coordinator, increments `task.retries`,
reports `rate_limited (retry n)` to the progress reporter as the run-end
status, leaves the task's `RunResult` unchanged (its status stays whatever
it was, `pending` on a fresh attempt), and returns `done = false`. -/
theorem rate_limit_retry_behaviour (inp : ProcInput) (exc : PyExc)
    (hexc : raisedExc inp = some exc)
    (hty1 : exc.ty ≠ .searchAuthError)
    (hty2 : exc.ty ≠ .batchRunTimeoutError)
    (hrl : _is_rate_limit_error exc = true)
    (hlt : inp.retries < MAX_RETRIES) :
    (process_problem inp).exit = .ret false ∧
    (process_problem inp).signaledRateLimit = true ∧
    (process_problem inp).retries = inp.retries + 1 ∧
    (process_problem inp).progressEnd =
      some ("rate_limited (retry " ++ toString (inp.retries + 1) ++ ")") ∧
    (process_problem inp).result = initialResult inp := by
  rcases pp_eq_classify inp exc hexc with ⟨_, hpp⟩ | ⟨_, hpp, _⟩ <;>
  · rw [hpp, classifyExc_retry inp exc _ _ hty1 hty2 hrl hlt]
    exact ⟨rfl, rfl, rfl, rfl, rfl⟩

def c3WitInput : ProcInput :=
  { runId := "r2", title := "T", max_cost := 0, timeout_seconds := 0, totalCost := 0,
    retries := 1, existing := some ⟨"r2", "T", "pending", Cost.zero, none, none, none, "runs/r2"⟩,
    construction := .ok (),
    agentResult := .error ⟨.searchRateLimitError, "slow down"⟩,
    finishesInTime := true, agentCosts := Cost.zero }

theorem rate_limit_retry_behaviour_witness :
    raisedExc c3WitInput = some ⟨.searchRateLimitError, "slow down"⟩ ∧
    (process_problem c3WitInput).exit = .ret false ∧
    (process_problem c3WitInput).retries = 2 ∧
    (process_problem c3WitInput).progressEnd = some "rate_limited (retry 2)" :=
  ⟨by decide,
   (rate_limit_retry_behaviour c3WitInput ⟨.searchRateLimitError, "slow down"⟩
      (by decide) (by decide) (by decide) (by decide) (by decide)).1,
   (rate_limit_retry_behaviour c3WitInput ⟨.searchRateLimitError, "slow down"⟩
      (by decide) (by decide) (by decide) (by decide) (by decide)).2.2.1,
   by
    have h := (rate_limit_retry_behaviour c3WitInput ⟨.searchRateLimitError, "slow down"⟩
      (by decide) (by decide) (by decide) (by decide) (by decide)).2.2.2.1
    simpa using h⟩

/-- C4 (counterexample): on a supervised run that does not finish within a
positive `timeout_seconds`, the cancellation flag is set, the task is done
permanently and no artifacts are saved — but the status recorded on the
`RunResult` is the exception class name `BatchRunTimeoutError`, not the
literal `timeout` the claim states. -/
def c4CexInput : ProcInput :=
  { runId := "r1", title := "T", max_cost := 0, timeout_seconds := 5, totalCost := 0,
    retries := 0, existing := none, construction := .ok (),
    agentResult := .ok ⟨some "submitted", none, none⟩, finishesInTime := false,
    agentCosts := Cost.zero }

theorem timeout_status_counterexample :
    (_run_agent_with_timeout c4CexInput.timeout_seconds c4CexInput.agentResult
      c4CexInput.finishesInTime).cancelSet = true ∧
    (process_problem c4CexInput).result.status = "BatchRunTimeoutError" ∧
    (process_problem c4CexInput).result.status ≠ "timeout" ∧
    (process_problem c4CexInput).exit = .ret true ∧
    (process_problem c4CexInput).savedArtifacts = false ∧
    (process_problem c4CexInput).summaryWritten = true := by
  refine ⟨by decide, by decide, by decide, by decide, by decide, by decide⟩

/-- C4 (amended): when the run does not finish within `timeout_seconds > 0`,
the supervisor sets the cooperative cancellation flag and raises the
explicit timeout exception type (`BatchRunTimeoutError`, matched by type,
not by message pattern); `process_problem` then records that exception's
class name `BatchRunTimeoutError` as the status, returns `done = true`
(permanent for this task only), does not save the run artifacts, and still
flushes the summary snapshot. -/
theorem timeout_supervision (inp : ProcInput)
    (hb : ¬budgetHit inp)
    (hc : inp.construction = .ok ())
    (ht : 0 < inp.timeout_seconds)
    (hf : inp.finishesInTime = false) :
    (_run_agent_with_timeout inp.timeout_seconds inp.agentResult
      inp.finishesInTime).cancelSet = true ∧
    (∃ e, (_run_agent_with_timeout inp.timeout_seconds inp.agentResult
      inp.finishesInTime).res = .error e ∧ e.ty = .batchRunTimeoutError) ∧
    (process_problem inp).result.status = "BatchRunTimeoutError" ∧
    (process_problem inp).timedOut = true ∧
    (process_problem inp).exit = .ret true ∧
    (process_problem inp).savedArtifacts = false ∧
    (process_problem inp).summaryWritten = true := by
  have hs : _run_agent_with_timeout inp.timeout_seconds inp.agentResult inp.finishesInTime
      = ⟨true, .error ⟨.batchRunTimeoutError,
          "Eval run timed out after " ++ toString inp.timeout_seconds ++ "s"⟩⟩ := by
    unfold _run_agent_with_timeout
    rw [if_neg (not_le.mpr ht)]
    simp [hf]
  have hexc : raisedExc inp = some ⟨.batchRunTimeoutError,
      "Eval run timed out after " ++ toString inp.timeout_seconds ++ "s"⟩ := by
    unfold raisedExc
    rw [if_neg hb]
    simp only [hc, hs]
  have hpp : process_problem inp = classifyExc inp
      ⟨.batchRunTimeoutError, "Eval run timed out after " ++ toString inp.timeout_seconds ++ "s"⟩
      true true := by
    rcases pp_eq_classify inp _ hexc with ⟨hcc, hpp⟩ | ⟨_, hpp, _⟩
    · rw [hc] at hcc
      simp at hcc
    · rw [hpp, hs]
  rw [hpp, classifyExc_timeout _ _ _ _ (by simp) rfl]
  exact ⟨by rw [hs], ⟨_, by rw [hs], rfl⟩, rfl, rfl, rfl, rfl, rfl⟩

def c4WitInput : ProcInput :=
  { runId := "r7", title := "T", max_cost := 0, timeout_seconds := 3, totalCost := 0,
    retries := 0, existing := none, construction := .ok (),
    agentResult := .ok ⟨some "submitted", none, none⟩, finishesInTime := false,
    agentCosts := Cost.zero }

theorem timeout_supervision_witness :
    ¬budgetHit c4WitInput ∧ (0 : ℚ) < c4WitInput.timeout_seconds ∧
    ((process_problem c4WitInput).result.status = "BatchRunTimeoutError" ∧
      (process_problem c4WitInput).savedArtifacts = false) :=
  ⟨by decide, by decide,
   (timeout_supervision c4WitInput (by decide) rfl (by decide) rfl).2.2.1,
   (timeout_supervision c4WitInput (by decide) rfl (by decide) rfl).2.2.2.2.2.1⟩

/-- C6: the budget gate — `process_problem` skips a task exactly when
`max_cost > 0` and the shared total cost has reached it on entry, recording
`skipped_cost_limit` and completing the task without starting dependency
construction (so the agent factory is never invoked for it); with
`max_cost = 0` no task is ever budget-skipped and construction always
starts. -/
theorem budget_gate (inp : ProcInput) :
    ((process_problem inp).budgetSkipped = true ↔
      (0 < inp.max_cost ∧ inp.max_cost ≤ inp.totalCost)) ∧
    (budgetHit inp →
      (process_problem inp).result.status = "skipped_cost_limit" ∧
      (process_problem inp).exit = .ret true ∧
      (process_problem inp).constructionStarted = false) ∧
    (inp.max_cost = 0 →
      (process_problem inp).budgetSkipped = false ∧
      (process_problem inp).constructionStarted = true) := by
  refine ⟨pp_budgetSkipped_iff inp, ?_, ?_⟩
  · intro hb
    rw [pp_budget inp hb]
    exact ⟨rfl, rfl, rfl⟩
  · intro h0
    have hb : ¬budgetHit inp := by
      unfold budgetHit
      rw [h0]
      simp
    have h1 : (process_problem inp).budgetSkipped = false := by
      rcases Bool.eq_false_or_eq_true (process_problem inp).budgetSkipped with h | h
      · exact absurd ((pp_budgetSkipped_iff inp).mp h) hb
      · exact h
    refine ⟨h1, ?_⟩
    rw [pp_constructionStarted_iff inp, h1]
    rfl

def c6SkipInput : ProcInput :=
  { runId := "r3", title := "T", max_cost := 1, timeout_seconds := 0, totalCost := 1,
    retries := 0, existing := none, construction := .ok (),
    agentResult := .ok ⟨some "submitted", none, none⟩, finishesInTime := true,
    agentCosts := Cost.zero }

def c6FreeInput : ProcInput :=
  { runId := "r4", title := "T", max_cost := 0, timeout_seconds := 0, totalCost := 100,
    retries := 0, existing := none, construction := .ok (),
    agentResult := .error ⟨.other "ValueError", "boom"⟩, finishesInTime := true,
    agentCosts := Cost.zero }

theorem budget_gate_witness :
    budgetHit c6SkipInput ∧
    (process_problem c6SkipInput).result.status = "skipped_cost_limit" ∧
    (process_problem c6SkipInput).constructionStarted = false ∧
    c6FreeInput.max_cost = 0 ∧
    (process_problem c6FreeInput).budgetSkipped = false ∧
    (process_problem c6FreeInput).constructionStarted = true :=
  ⟨by decide,
   ((budget_gate c6SkipInput).2.1 (by decide)).1,
   ((budget_gate c6SkipInput).2.1 (by decide)).2.2,
   by decide,
   ((budget_gate c6FreeInput).2.2 (by decide)).1,
   ((budget_gate c6FreeInput).2.2 (by decide)).2⟩

/-- Auth-message branch of the exception classifier, as a full record. -/
theorem classifyExc_msg_auth (inp : ProcInput) (exc : PyExc) (ac cs : Bool)
    (h1 : exc.ty ≠ .searchAuthError) (h2 : exc.ty ≠ .batchRunTimeoutError)
    (h3 : ¬(_is_rate_limit_error exc = true ∧ inp.retries < MAX_RETRIES))
    (h4 : _is_auth_error exc = true) :
    classifyExc inp exc ac cs =
      { exit := .fatal ("Run " ++ inp.runId ++ " failed with auth error: " ++ exc.msg)
        result := { initialResult inp with
          status := "auth_error"
          error := some (.str exc.msg) }
        retries := inp.retries
        totalCost := inp.totalCost
        budgetSkipped := false
        constructionStarted := true
        signaledRateLimit := _is_rate_limit_error exc
        cancelSet := cs
        timedOut := false
        savedArtifacts := ac
        summaryWritten := true
        progressEnd := some "auth_error" } := by
  unfold classifyExc
  rw [if_neg h1, if_neg h2, if_neg h3, if_pos h4]

/-! ## Claim C5: iterated attempts of one always-rate-limited task -/

/-- An error that the classifier treats as rate-limited (and that is not
one of the explicitly typed auth/timeout exceptions caught earlier). -/
def rlClassified (e : PyExc) : Prop :=
  _is_rate_limit_error e = true ∧ e.ty ≠ .searchAuthError ∧ e.ty ≠ .batchRunTimeoutError

instance (e : PyExc) : Decidable (rlClassified e) := by
  unfold rlClassified; infer_instance

/-- Task-local state carried between successive `process_problem` calls of
the same task (its mutable `retries` counter, its `RunResult` entry, the
shared total cost). -/
structure AttemptState where
  retries : ℕ
  existing : Option RunResult
  totalCost : ℚ
deriving DecidableEq

/-- The `process_problem` input of one attempt that raises `exc` from
`agent.run`, under an unlimited budget and no timeout supervision. -/
def attemptInput (runId title : String) (exc : PyExc) (s : AttemptState) : ProcInput :=
  { runId := runId, title := title, max_cost := 0, timeout_seconds := 0,
    totalCost := s.totalCost, retries := s.retries, existing := s.existing,
    construction := .ok (), agentResult := .error exc, finishesInTime := true,
    agentCosts := Cost.zero }

/-- Task state after `n` attempts, the `n`-th attempt raising `excs n`. -/
def afterAttempts (runId title : String) (excs : ℕ → PyExc) : ℕ → AttemptState
  | 0 => ⟨0, none, 0⟩
  | n + 1 =>
    let out := process_problem
      (attemptInput runId title (excs n) (afterAttempts runId title excs n))
    ⟨out.retries, some out.result, out.totalCost⟩

/-- Outcome of the `n`-th `process_problem` call (0-based). -/
def nthAttempt (runId title : String) (excs : ℕ → PyExc) (n : ℕ) : ProcOutput :=
  process_problem (attemptInput runId title (excs n) (afterAttempts runId title excs n))

theorem attempt_raised (runId title : String) (exc : PyExc) (s : AttemptState) :
    raisedExc (attemptInput runId title exc s) = some exc := by
  unfold raisedExc attemptInput budgetHit _run_agent_with_timeout
  norm_num

theorem attempt_retry (runId title : String) (exc : PyExc) (s : AttemptState)
    (hrl : rlClassified exc) (hlt : s.retries < MAX_RETRIES) :
    process_problem (attemptInput runId title exc s) =
      { exit := .ret false
        result := initialResult (attemptInput runId title exc s)
        retries := s.retries + 1
        totalCost := s.totalCost
        budgetSkipped := false
        constructionStarted := true
        signaledRateLimit := true
        cancelSet := false
        timedOut := false
        savedArtifacts := true
        summaryWritten := true
        progressEnd := some ("rate_limited (retry " ++ toString (s.retries + 1) ++ ")") } := by
  rcases pp_eq_classify _ exc (attempt_raised runId title exc s) with ⟨hc, hpp⟩ | ⟨_, hpp, _⟩
  · exact absurd hc (by simp [attemptInput])
  · rw [hpp, classifyExc_retry _ _ _ _ hrl.2.1 hrl.2.2 hrl.1 hlt]
    have hcs : (_run_agent_with_timeout (attemptInput runId title exc s).timeout_seconds
        (attemptInput runId title exc s).agentResult
        (attemptInput runId title exc s).finishesInTime).cancelSet = false := by
      unfold attemptInput _run_agent_with_timeout
      norm_num
    rw [hcs]
    rfl

theorem c5_states (runId title : String) (excs : ℕ → PyExc)
    (h : ∀ n, rlClassified (excs n)) :
    ∀ n, n ≤ 3 → (afterAttempts runId title excs n).retries = n ∧
      (afterAttempts runId title excs n).totalCost = 0 := by
  intro n
  induction n with
  | zero => exact fun _ => ⟨rfl, rfl⟩
  | succ m ih =>
    intro hm
    obtain ⟨hr, ht⟩ := ih (by omega)
    have hlt : (afterAttempts runId title excs m).retries < MAX_RETRIES := by
      rw [hr]; unfold MAX_RETRIES; omega
    have hstep := attempt_retry runId title (excs m) (afterAttempts runId title excs m)
      (h m) hlt
    constructor
    · show (afterAttempts runId title excs (m + 1)).retries = m + 1
      simp only [afterAttempts]
      rw [hstep]
      simp [attemptInput, hr]
    · show (afterAttempts runId title excs (m + 1)).totalCost = 0
      simp only [afterAttempts]
      rw [hstep]
      simp [attemptInput, ht]

/-- C5 (amended): for a task whose every execution attempt raises a
rate-limit-classified error, the first three `process_problem` calls return
`done = false` (re-enqueue) with the retry counter at `n + 1` after call
`n`; the fourth call does not retry and leaves the counter at exactly
`3 = MAX_RETRIES`: when the error does not also match the auth pattern it
returns `done = true` recording the exception class name as a permanent
failure, but when the fourth error also message-matches the auth pattern it
raises the fatal auth error instead of returning. -/
theorem retry_bound (runId title : String) (excs : ℕ → PyExc)
    (h : ∀ n, rlClassified (excs n)) :
    (∀ n, n < 3 → (nthAttempt runId title excs n).exit = .ret false ∧
      (nthAttempt runId title excs n).retries = n + 1) ∧
    ((afterAttempts runId title excs 3).retries = 3) ∧
    (_is_auth_error (excs 3) = false →
      (nthAttempt runId title excs 3).exit = .ret true ∧
      (nthAttempt runId title excs 3).retries = 3 ∧
      (nthAttempt runId title excs 3).result.status = (excs 3).ty.pyName) ∧
    (_is_auth_error (excs 3) = true →
      (nthAttempt runId title excs 3).exit =
        .fatal ("Run " ++ runId ++ " failed with auth error: " ++ (excs 3).msg) ∧
      (nthAttempt runId title excs 3).retries = 3) := by
  have hstate := c5_states runId title excs h
  have h3 : (afterAttempts runId title excs 3).retries = 3 := (hstate 3 (by omega)).1
  have hnot : ¬(_is_rate_limit_error (excs 3) = true ∧
      (attemptInput runId title (excs 3) (afterAttempts runId title excs 3)).retries
        < MAX_RETRIES) := by
    intro hcon
    have : (attemptInput runId title (excs 3) (afterAttempts runId title excs 3)).retries
        = 3 := h3
    rw [this] at hcon
    exact absurd hcon.2 (by unfold MAX_RETRIES; omega)
  have hclass : ∃ cs, process_problem
      (attemptInput runId title (excs 3) (afterAttempts runId title excs 3)) =
      classifyExc (attemptInput runId title (excs 3) (afterAttempts runId title excs 3))
        (excs 3) true cs := by
    rcases pp_eq_classify _ (excs 3)
        (attempt_raised runId title (excs 3) (afterAttempts runId title excs 3)) with
      ⟨hc, hpp⟩ | ⟨_, hpp, _⟩
    · exact absurd hc (by simp [attemptInput])
    · exact ⟨_, hpp⟩
  refine ⟨?_, h3, ?_, ?_⟩
  · intro n hn
    have hlt : (afterAttempts runId title excs n).retries < MAX_RETRIES := by
      rw [(hstate n (by omega)).1]; unfold MAX_RETRIES; omega
    have hstep := attempt_retry runId title (excs n) (afterAttempts runId title excs n)
      (h n) hlt
    unfold nthAttempt
    rw [hstep]
    exact ⟨rfl, by simp [(hstate n (by omega)).1]⟩
  · intro hna
    obtain ⟨cs, hpp⟩ := hclass
    unfold nthAttempt
    rw [hpp, classifyExc_generic _ _ _ _ (h 3).2.1 (h 3).2.2 hnot hna]
    exact ⟨rfl, h3, rfl⟩
  · intro hia
    obtain ⟨cs, hpp⟩ := hclass
    unfold nthAttempt
    rw [hpp, classifyExc_msg_auth _ _ _ _ (h 3).2.1 (h 3).2.2 hnot hia]
    exact ⟨rfl, h3⟩

/-- C5 (counterexample): an error matching both the rate-limit pattern and
the auth-token list (here via `api key`) retries three times, but the
fourth call raises the fatal auth error instead of returning
`done = true` with a permanent failure — while the retry counter still ends
at exactly 3. -/
def c5CexExcs : ℕ → PyExc := fun _ => ⟨.other "RuntimeError", "429 rate limit: invalid api key"⟩

theorem retry_bound_counterexample :
    rlClassified (c5CexExcs 0) ∧
    _is_auth_error (c5CexExcs 3) = true ∧
    (nthAttempt "rx" "T" c5CexExcs 0).exit = .ret false ∧
    (nthAttempt "rx" "T" c5CexExcs 1).exit = .ret false ∧
    (nthAttempt "rx" "T" c5CexExcs 2).exit = .ret false ∧
    (nthAttempt "rx" "T" c5CexExcs 3).exit ≠ .ret true ∧
    (nthAttempt "rx" "T" c5CexExcs 3).exit =
      .fatal "Run rx failed with auth error: 429 rate limit: invalid api key" ∧
    (nthAttempt "rx" "T" c5CexExcs 3).retries = 3 := by
  refine ⟨by decide, by decide, by decide, by decide, by decide, by decide, by decide,
    by decide⟩

def c5WitExcs : ℕ → PyExc := fun _ => ⟨.searchRateLimitError, "too many requests"⟩

theorem retry_bound_witness :
    rlClassified (c5WitExcs 0) ∧
    (nthAttempt "rw" "T" c5WitExcs 0).exit = .ret false ∧
    (nthAttempt "rw" "T" c5WitExcs 3).exit = .ret true ∧
    (nthAttempt "rw" "T" c5WitExcs 3).result.status = (c5WitExcs 3).ty.pyName :=
  ⟨by decide,
   ((retry_bound "rw" "T" c5WitExcs (fun _ => (by decide : rlClassified ⟨.searchRateLimitError, "too many requests"⟩))).1 0 (by omega)).1,
   ((retry_bound "rw" "T" c5WitExcs (fun _ => (by decide : rlClassified ⟨.searchRateLimitError, "too many requests"⟩))).2.2.1 (by decide)).1,
   ((retry_bound "rw" "T" c5WitExcs (fun _ => (by decide : rlClassified ⟨.searchRateLimitError, "too many requests"⟩))).2.2.1 (by decide)).2.2⟩

/-! ## Claim C9: the rate-limit coordinator -/

/-- C9: `signal_rate_limit` while the gate is already paused leaves the
coordinator state completely unchanged — no auto-resume timer is added and
the pending backoff is neither extended nor restarted; while the gate is
resumed it flips the gate to paused and schedules exactly one deferred
auto-resume after the given backoff (or the default when none is given). -/
theorem coordinator_signal_rate_limit (c : RateLimitCoordinator) (b : Option ℚ) :
    (c.resumeSet = false → c.signal_rate_limit b = c) ∧
    (c.resumeSet = true →
      (c.signal_rate_limit b).resumeSet = false ∧
      (c.signal_rate_limit b).pendingResumes =
        c.pendingResumes ++ [b.getD c.backoff_seconds] ∧
      (c.signal_rate_limit b).backoff_seconds = c.backoff_seconds) := by
  constructor
  · intro h
    unfold RateLimitCoordinator.signal_rate_limit
    simp [h]
  · intro h
    unfold RateLimitCoordinator.signal_rate_limit
    simp [h]

theorem coordinator_signal_rate_limit_witness :
    ((⟨false, [(2 : ℚ)], 60⟩ : RateLimitCoordinator).signal_rate_limit (some 5)
      = ⟨false, [(2 : ℚ)], 60⟩) ∧
    ((⟨true, [], 60⟩ : RateLimitCoordinator).signal_rate_limit (some 5)).pendingResumes
      = [(5 : ℚ)] ∧
    ((⟨true, [], 60⟩ : RateLimitCoordinator).signal_rate_limit none).pendingResumes
      = [(60 : ℚ)] :=
  ⟨(coordinator_signal_rate_limit ⟨false, [(2 : ℚ)], 60⟩ (some 5)).1 rfl,
   by
    have h := ((coordinator_signal_rate_limit ⟨true, [], 60⟩ (some 5)).2 rfl).2.1
    simpa using h,
   by
    have h := ((coordinator_signal_rate_limit ⟨true, [], 60⟩ none).2 rfl).2.1
    simpa using h⟩

/-! ## Claim C10: leniency of load_existing_summary -/

/-- C10: `load_existing_summary` is lenient beyond the stated error cases:
a summary object with no `runs` key yields empty results and the stored (or
zero) total cost without error; entries of `runs` that are not JSON objects
are silently skipped; decoded entries whose `run_id` is missing or empty
are silently dropped rather than raising a validation error. -/
theorem load_summary_leniency :
    (∀ data : PyVal, data.isObj = true → objGet "runs" data = none →
      ∀ q, summaryTotalCost data = .ok q →
        load_existing_summary (.parsed data) = .ok ([], q)) ∧
    (∀ v rest acc, v.isObj = false → collectRuns (.arrCons v rest) acc = collectRuns rest acc) ∧
    (∀ d rest acc r, d.isObj = true → RunResult.from_dict d = .ok r → r.run_id = "" →
      collectRuns (.arrCons d rest) acc = collectRuns rest acc) := by
  refine ⟨?_, ?_, ?_⟩
  · intro data hobj hruns q hq
    rw [load_existing_summary.eq_def]
    simp [hobj, hruns, collectRuns, hq, PyVal.isArr]
  · intro v rest acc hv
    rw [collectRuns.eq_def]
    simp [hv]
  · intro d rest acc r hd hr hid
    rw [collectRuns.eq_def]
    simp [hd, hr, hid]

theorem load_summary_leniency_witness :
    load_existing_summary (.parsed (.objCons "total_cost" (.int 2) .objNil)) = .ok ([], 2) ∧
    collectRuns (.arrCons (.str "junk") .arrNil) [] = .ok [] ∧
    collectRuns (.arrCons (.objCons "title" (.str "T") .objNil) .arrNil) [] = .ok [] :=
  ⟨load_summary_leniency.1 (.objCons "total_cost" (.int 2) .objNil) (by decide) (by decide)
      2 (by decide),
   by
    have h := load_summary_leniency.2.1 (.str "junk") .arrNil [] (by decide)
    rw [h]
    decide,
   by
    have h := load_summary_leniency.2.2 (.objCons "title" (.str "T") .objNil) .arrNil []
      ⟨"", "T", "pending", Cost.zero, none, none, none, ""⟩ (by decide) (by decide) (by decide)
    rw [h]
    decide⟩

/-! ## Claim C2: the resume filter -/

/-- C2 (counterexample): with resume enabled, an input task whose `run_id`
appears in the loaded summary with the non-terminal status `pending` is
still excluded from the seeded queue — the seeded list is empty — refuting
the claim that only terminal summary entries are excluded and that a
pending entry is seeded and executed again. -/
def c2File : SummaryFile :=
  .parsed (.objCons "total_cost" (.float 0)
    (.objCons "runs" (.arrCons (.objCons "run_id" (.str "r1")
      (.objCons "title" (.str "T") (.objCons "status" (.str "pending") .objNil))) .arrNil)
      .objNil))

def c2Entry : RunResult := ⟨"r1", "T", "pending", Cost.zero, none, none, none, ""⟩

theorem resume_pending_excluded_counterexample :
    load_existing_summary c2File = .ok ([("r1", c2Entry)], 0) ∧
    c2Entry.status = "pending" ∧
    c2Entry.status ∉ (["submitted", "skipped_cost_limit", "timeout", "auth_error",
      "BatchRunTimeoutError"] : List String) ∧
    _resolve_resume_state true c2File [⟨"r1", "T", ["A", "B"], 0⟩] =
      .ok ([], [("r1", c2Entry)], 0) := by
  refine ⟨by decide, by decide, by decide, by decide⟩

/-- C2 (amended): when resume is enabled, a summary file is present and
loads successfully, and every loaded `run_id` appears in the input task
set, the resolver succeeds and a task is excluded from the seeded queue if
and only if its `run_id` appears in the loaded summary — regardless of the
status recorded there (terminal or not). -/
theorem resume_exclusion_by_presence (file : SummaryFile)
    (problems : List ForecastProblem)
    (resumeResults : List (String × RunResult)) (total : ℚ)
    (hfile : file ≠ .missing)
    (hload : load_existing_summary file = .ok (resumeResults, total))
    (hsub : ∀ id ∈ resumeResults.map Prod.fst, id ∈ problems.map (·.run_id)) :
    _resolve_resume_state true file problems =
      .ok (problems.filter
        (fun p => ¬(resumeResults.map Prod.fst).contains p.run_id),
        resumeResults, total) ∧
    ∀ p ∈ problems,
      (p ∈ problems.filter
          (fun p => ¬(resumeResults.map Prod.fst).contains p.run_id) ↔
        p.run_id ∉ resumeResults.map Prod.fst) := by
  constructor
  · unfold _resolve_resume_state
    rw [if_neg (by simp), if_neg hfile, hload]
    have hany : ((resumeResults.map Prod.fst).any
        (fun id => ¬(problems.map (·.run_id)).contains id)) = false := by
      rw [List.any_eq_false]
      intro id hid
      simpa using hsub id hid
    simp only [hany]
    simp
  · intro p hp
    rw [List.mem_filter]
    simp [hp]

def c2WitFile : SummaryFile :=
  .parsed (.objCons "total_cost" (.float 0)
    (.objCons "runs" (.arrCons (.objCons "run_id" (.str "a1")
      (.objCons "status" (.str "submitted") .objNil)) .arrNil) .objNil))

def c2WitEntry : RunResult := ⟨"a1", "", "submitted", Cost.zero, none, none, none, ""⟩

def c2WitProblems : List ForecastProblem :=
  [⟨"a1", "T1", ["A", "B"], 0⟩, ⟨"a2", "T2", ["A", "B"], 0⟩]

theorem resume_exclusion_by_presence_witness :
    load_existing_summary c2WitFile = .ok ([("a1", c2WitEntry)], 0) ∧
    _resolve_resume_state true c2WitFile c2WitProblems =
      .ok ([⟨"a2", "T2", ["A", "B"], 0⟩], [("a1", c2WitEntry)], 0) :=
  ⟨by decide, by
    have h := (resume_exclusion_by_presence c2WitFile c2WitProblems
      [("a1", c2WitEntry)] 0 (by decide) (by decide) (by decide)).1
    rw [h]
    decide⟩

/-! ## Step shape analysis

Every `workerStep` is either a no-op (index out of range, stopped worker)
or one of six transitions; every execution phase is one of five outcomes.
These lemmas expose the exact successor state of each case. -/

/-- Message carried by a fatal-flag write event. -/
def fatalMsgOf : OrchEvent → Option String
  | .fatalSetEvt m => some m
  | _ => none

theorem heldTasks_middle (L R : List WorkerPhase) (ph : WorkerPhase) :
    heldTasks (L ++ ph :: R) = heldTasks L ++ (heldTasks [ph] ++ heldTasks R) := by
  rw [show (ph :: R) = [ph] ++ R from rfl, heldTasks_append, heldTasks_append]

/-- Copies of a task id in queue `q` and workers `L ++ ph :: R`. -/
theorem locCountQW (id : String) (q : List ForecastProblem) (L R : List WorkerPhase)
    (ph : WorkerPhase) :
    idCount id q + idCount id (heldTasks (L ++ ph :: R)) =
      idCount id q + idCount id (heldTasks L) + idCount id (heldTasks [ph]) +
        idCount id (heldTasks R) := by
  rw [heldTasks_middle, idCount_append, idCount_append]
  omega

theorem heldTasks_top : heldTasks [.top] = [] := rfl
theorem heldTasks_stopped : heldTasks [.stopped] = [] := rfl
theorem heldTasks_got (t : ForecastProblem) : heldTasks [.got t] = [t] := rfl
theorem heldTasks_running (t : ForecastProblem) : heldTasks [.running t] = [t] := rfl

theorem idCount_nil (id : String) : idCount id [] = 0 := rfl

theorem idCount_singleton (id : String) (t : ForecastProblem) :
    idCount id [t] = if t.run_id = id then 1 else 0 := by
  by_cases h : t.run_id = id <;> simp [idCount, h]

theorem workerStep_shape (args : EvalRunArgs) (env : AgentEnv) (s : OrchState) (i : ℕ) :
    workerStep args env s i = s ∨
    (∃ L R, (∀ ph, s.workers.set i ph = L ++ ph :: R) ∧
      ((∃ m, s.workers = L ++ .top :: R ∧ s.fatal = some m ∧
          workerStep args env s i = { s with workers := L ++ .stopped :: R }) ∨
       (s.workers = L ++ .top :: R ∧ s.fatal = none ∧ s.queue = [] ∧
          workerStep args env s i = { s with workers := L ++ .stopped :: R }) ∨
       (∃ t rest, s.workers = L ++ .top :: R ∧ s.fatal = none ∧ s.queue = t :: rest ∧
          workerStep args env s i = { s with queue := rest, workers := L ++ .got t :: R }) ∨
       (∃ t m, s.workers = L ++ .got t :: R ∧ s.fatal = some m ∧
          workerStep args env s i = { s with workers := L ++ .stopped :: R }) ∨
       (∃ t, s.workers = L ++ .got t :: R ∧ s.fatal = none ∧
          workerStep args env s i = { s with workers := L ++ .running t :: R }) ∨
       (∃ t, s.workers = L ++ .running t :: R ∧
          workerStep args env s i = execStep args env s i t))) := by
  cases hw : s.workers[i]? with
  | none =>
    left
    unfold workerStep
    rw [hw]
  | some w =>
    obtain ⟨L, R, hws, hset⟩ := workers_decomp s.workers i w hw
    cases w with
    | stopped =>
      left
      unfold workerStep
      rw [hw]
    | top =>
      right
      refine ⟨L, R, hset, ?_⟩
      cases hf : s.fatal with
      | some m =>
        refine .inl ⟨m, hws, rfl, ?_⟩
        unfold workerStep
        rw [hw]
        simp [hf, hset]
      | none =>
        cases hq : s.queue with
        | nil =>
          refine .inr (.inl ⟨hws, rfl, rfl, ?_⟩)
          unfold workerStep
          rw [hw]
          simp [hf, hq, hset]
        | cons t rest =>
          refine .inr (.inr (.inl ⟨t, rest, hws, rfl, rfl, ?_⟩))
          unfold workerStep
          rw [hw]
          simp [hf, hq, hset]
    | got t =>
      right
      refine ⟨L, R, hset, ?_⟩
      cases hf : s.fatal with
      | some m =>
        refine .inr (.inr (.inr (.inl ⟨t, m, hws, rfl, ?_⟩)))
        unfold workerStep
        rw [hw]
        simp [hf, hset]
      | none =>
        refine .inr (.inr (.inr (.inr (.inl ⟨t, hws, rfl, ?_⟩))))
        unfold workerStep
        rw [hw]
        simp [hf, hset]
    | running t =>
      right
      refine ⟨L, R, hset, .inr (.inr (.inr (.inr (.inr ⟨t, hws, ?_⟩))))⟩
      unfold workerStep
      rw [hw]

theorem execStep_shape (args : EvalRunArgs) (env : AgentEnv) (s : OrchState) (i : ℕ)
    (t : ForecastProblem) :
    ((execOut args env s t).exit = .ret true ∧
      execStep args env s i t =
        { execBase args env s t with workers := s.workers.set i .top }) ∨
    (∃ m, (execOut args env s t).exit = .ret false ∧ s.fatal = some m ∧
      execStep args env s i t =
        { execBase args env s t with workers := s.workers.set i .top }) ∨
    ((execOut args env s t).exit = .ret false ∧ s.fatal = none ∧
      execStep args env s i t =
        { execBase args env s t with
          workers := s.workers.set i .top
          queue := s.queue ++ [{ t with retries := (execOut args env s t).retries }] }) ∨
    (∃ m m0, (execOut args env s t).exit = .fatal m ∧ s.fatal = some m0 ∧
      execStep args env s i t =
        { execBase args env s t with
          workers := s.workers.set i .stopped
          fatal := some m0
          queue := []
          hist := (execBase args env s t).hist ++
            [.drainEvt (drainEntries args env s t)] }) ∨
    (∃ m, (execOut args env s t).exit = .fatal m ∧ s.fatal = none ∧
      execStep args env s i t =
        { execBase args env s t with
          workers := s.workers.set i .stopped
          fatal := some m
          queue := []
          hist := (execBase args env s t).hist ++
            [.fatalSetEvt m, .drainEvt (drainEntries args env s t)] }) := by
  cases he : (execOut args env s t).exit with
  | ret done =>
    cases done with
    | true =>
      refine .inl ⟨rfl, ?_⟩
      unfold execStep
      rw [he]
    | false =>
      cases hf : s.fatal with
      | some m =>
        refine .inr (.inl ⟨m, rfl, rfl, ?_⟩)
        unfold execStep
        rw [he]
        simp [hf]
      | none =>
        refine .inr (.inr (.inl ⟨rfl, rfl, ?_⟩))
        unfold execStep
        rw [he]
        simp [hf]
  | fatal m =>
    cases hf : s.fatal with
    | some m0 =>
      refine .inr (.inr (.inr (.inl ⟨m, m0, rfl, rfl, ?_⟩)))
      unfold execStep
      rw [he]
      simp [hf]
    | none =>
      refine .inr (.inr (.inr (.inr ⟨m, rfl, rfl, ?_⟩)))
      unfold execStep
      rw [he]
      simp [hf]

/-- On any step the number of copies of a task id across the queue and the
workers never increases: tasks only move (pop, run, re-enqueue) or retire. -/
theorem locCount_step_le (args : EvalRunArgs) (env : AgentEnv) (s : OrchState) (i : ℕ)
    (id : String) : locCount (workerStep args env s i) id ≤ locCount s id := by
  rcases workerStep_shape args env s i with heq | ⟨L, R, hset, hcase⟩
  · rw [heq]
  rcases hcase with ⟨m, hws, hf, heq⟩ | ⟨hws, hf, hq, heq⟩ | ⟨t, rest, hws, hf, hq, heq⟩ |
    ⟨t, m, hws, hf, heq⟩ | ⟨t, hws, hf, heq⟩ | ⟨t, hws, heq⟩
  · rw [heq]
    unfold locCount
    dsimp only
    rw [hws, heldTasks_middle, heldTasks_middle, idCount_append, idCount_append,
      idCount_append, idCount_append, heldTasks_stopped, heldTasks_top]
  · rw [heq]
    unfold locCount
    dsimp only
    rw [hws, heldTasks_middle, heldTasks_middle, idCount_append, idCount_append,
      idCount_append, idCount_append, heldTasks_stopped, heldTasks_top]
  · rw [heq]
    unfold locCount
    dsimp only
    rw [hws, hq, heldTasks_middle, heldTasks_middle, idCount_append, idCount_append,
      idCount_append, idCount_append, heldTasks_got, heldTasks_top]
    simp only [idCount_cons, idCount_nil]
    omega
  · rw [heq]
    unfold locCount
    dsimp only
    rw [hws, heldTasks_middle, heldTasks_middle, idCount_append, idCount_append,
      idCount_append, idCount_append, heldTasks_stopped, heldTasks_got,
      idCount_singleton, idCount_nil]
    omega
  · rw [heq]
    unfold locCount
    dsimp only
    rw [hws, heldTasks_middle, heldTasks_middle, idCount_append, idCount_append,
      idCount_append, idCount_append, heldTasks_running, heldTasks_got]
  · rw [heq]
    rcases execStep_shape args env s i t with ⟨he, heq2⟩ | ⟨m, he, hf, heq2⟩ |
      ⟨he, hf, heq2⟩ | ⟨m, m0, he, hf, heq2⟩ | ⟨m, he, hf, heq2⟩
    · rw [heq2]
      unfold locCount execBase
      dsimp only
      rw [hset, hws, heldTasks_middle, heldTasks_middle, idCount_append, idCount_append,
        idCount_append, idCount_append, heldTasks_running, heldTasks_top,
        idCount_singleton, idCount_nil]
      omega
    · rw [heq2]
      unfold locCount execBase
      dsimp only
      rw [hset, hws, heldTasks_middle, heldTasks_middle, idCount_append, idCount_append,
        idCount_append, idCount_append, heldTasks_running, heldTasks_top,
        idCount_singleton, idCount_nil]
      omega
    · rw [heq2]
      unfold locCount execBase
      dsimp only
      rw [hset, hws, idCount_append, heldTasks_middle, heldTasks_middle, idCount_append,
        idCount_append, idCount_append, idCount_append, heldTasks_running, heldTasks_top]
      simp only [idCount_cons, idCount_nil]
      dsimp only
      omega
    · rw [heq2]
      unfold locCount execBase
      dsimp only
      rw [hset, hws, heldTasks_middle, heldTasks_middle, idCount_append, idCount_append,
        idCount_append, idCount_append, heldTasks_running, heldTasks_stopped,
        idCount_singleton, idCount_nil]
      omega
    · rw [heq2]
      unfold locCount execBase
      dsimp only
      rw [hset, hws, heldTasks_middle, heldTasks_middle, idCount_append, idCount_append,
        idCount_append, idCount_append, heldTasks_running, heldTasks_stopped,
        idCount_singleton, idCount_nil]
      omega

/-- Splitting a concatenation at a distinguished element: the element lies
in the left or in the right part. -/
theorem split_middle_append {α : Type _} (l m h1 h2 : List α) (e : α)
    (h : l ++ m = h1 ++ e :: h2) :
    (∃ h2', l = h1 ++ e :: h2' ∧ h2 = h2' ++ m) ∨
    (∃ h1', h1 = l ++ h1' ∧ m = h1' ++ e :: h2) := by
  induction l generalizing h1 with
  | nil =>
    right
    exact ⟨h1, by simp, by simpa using h⟩
  | cons a l ih =>
    cases h1 with
    | nil =>
      simp at h
      left
      exact ⟨l, by simp [h.1], by simp [h.2]⟩
    | cons b h1t =>
      simp at h
      obtain ⟨hab, hrest⟩ := h
      rcases ih h1t hrest with ⟨h2', hl, hh2⟩ | ⟨h1', hh1, hm⟩
      · left
        exact ⟨h2', by simp [hab, hl], hh2⟩
      · right
        exact ⟨h1', by simp [hab, hh1], hm⟩

theorem split_singleton {α : Type _} {a e : α} {h1 h2 : List α}
    (h : [a] = h1 ++ e :: h2) : h1 = [] ∧ e = a ∧ h2 = [] := by
  cases h1 with
  | nil =>
    simp at h
    exact ⟨rfl, h.1.symm, h.2⟩
  | cons x xs =>
    simp at h

theorem split_pair {α : Type _} {a b e : α} {h1 h2 : List α}
    (h : [a, b] = h1 ++ e :: h2) :
    (h1 = [] ∧ e = a ∧ h2 = [b]) ∨ (h1 = [a] ∧ e = b ∧ h2 = []) := by
  cases h1 with
  | nil =>
    simp at h
    exact .inl ⟨rfl, h.1.symm, h.2.symm⟩
  | cons x xs =>
    simp at h
    obtain ⟨hx, h⟩ := h
    obtain ⟨hxs, he, hh2⟩ := split_singleton h
    exact .inr ⟨by simp [hx, hxs], he, hh2⟩

theorem idCount_pos_of_mem (u : ForecastProblem) (q : List ForecastProblem)
    (h : u ∈ q) : 1 ≤ idCount u.run_id q := by
  induction q with
  | nil => simp at h
  | cons a rest ih =>
    rw [idCount_cons]
    rcases List.mem_cons.mp h with h | h
    · rw [← h]
      simp
    · have := ih h
      omega

theorem heldTasks_replicate_top (n : ℕ) : heldTasks (List.replicate n .top) = [] := by
  induction n with
  | zero => rfl
  | succ m ih => simpa [List.replicate_succ, heldTasks, List.filterMap_cons, heldTask] using ih

theorem idCount_eq_count (id : String) (ts : List ForecastProblem) :
    idCount id ts = (ts.map (·.run_id)).count id := by
  induction ts with
  | nil => rfl
  | cons t ts ih =>
    by_cases h : t.run_id = id <;>
      simp [idCount_cons, h, List.count_cons, ih] <;> omega

theorem idCount_le_one_of_nodup (id : String) (ts : List ForecastProblem)
    (h : (ts.map (·.run_id)).Nodup) : idCount id ts ≤ 1 := by
  rw [idCount_eq_count]
  exact List.nodup_iff_count_le_one.mp h id

/-! ## Invariant for the fatal short-circuit (claim C7) -/

/-- Safety invariant of the orchestration state for the fatal
short-circuit: task ids occur at most once across queue and workers; a set
fatal flag means the queue has been drained; drains happen only under the
fatal flag; the fatal flag holds the message of the unique (first) fatal
write; and a drained task is gone from queue and workers, its result entry
frozen at its drain-time value, with no execution event after the drain. -/
structure Inv7 (s : OrchState) : Prop where
  locOk : ∀ id, locCount s id ≤ 1
  fatalQueueEmpty : s.fatal.isSome = true → s.queue = []
  drainFatal : ∀ entries, OrchEvent.drainEvt entries ∈ s.hist → s.fatal.isSome = true
  fatalFirst : s.fatal = (s.hist.filterMap fatalMsgOf).head? ∧
    (s.hist.filterMap fatalMsgOf).length ≤ 1
  drainOk : ∀ h1 entries h2, s.hist = h1 ++ OrchEvent.drainEvt entries :: h2 →
    ∀ p ∈ entries, locCount s p.1 = 0 ∧ lookupR p.1 s.results = p.2 ∧
      OrchEvent.execEvt p.1 ∉ h2

theorem inv7_init (args : EvalRunArgs) (problems : List ForecastProblem)
    (hnodup : (problems.map (·.run_id)).Nodup) : Inv7 (initState args problems) := by
  refine ⟨?_, ?_, ?_, ⟨rfl, by simp [initState]⟩, ?_⟩
  · intro id
    unfold locCount initState
    dsimp only
    rw [heldTasks_replicate_top, idCount_nil]
    simpa using idCount_le_one_of_nodup id problems hnodup
  · intro h
    simp [initState] at h
  · intro entries h
    simp [initState] at h
  · intro h1 entries h2 hh
    exact absurd hh (by simp [initState])

/-- Preservation of `Inv7` under a step that only moves tasks between the
queue and the workers (no execution, no new events). -/
theorem inv7_preserve_qw (s : OrchState) (q' : List ForecastProblem)
    (ws' : List WorkerPhase) (h : Inv7 s)
    (hle : ∀ id, locCount { s with queue := q', workers := ws' } id ≤ locCount s id)
    (hfq : s.fatal.isSome = true → q' = []) :
    Inv7 { s with queue := q', workers := ws' } := by
  refine ⟨?_, ?_, h.drainFatal, h.fatalFirst, ?_⟩
  · exact fun id => le_trans (hle id) (h.locOk id)
  · exact hfq
  · intro h1 entries h2 hh p hp
    obtain ⟨hc0, hlook, hnot⟩ := h.drainOk h1 entries h2 hh p hp
    refine ⟨?_, hlook, hnot⟩
    have := hle p.1
    omega

theorem split_triple {α : Type _} {a b c e : α} {h1 h2 : List α}
    (h : [a, b, c] = h1 ++ e :: h2) :
    (h1 = [] ∧ e = a ∧ h2 = [b, c]) ∨ (h1 = [a] ∧ e = b ∧ h2 = [c]) ∨
    (h1 = [a, b] ∧ e = c ∧ h2 = []) := by
  cases h1 with
  | nil =>
    simp at h
    exact .inl ⟨rfl, h.1.symm, h.2.symm⟩
  | cons x xs =>
    simp at h
    obtain ⟨hx, h⟩ := h
    rcases split_pair h with ⟨hxs, he, hh2⟩ | ⟨hxs, he, hh2⟩
    · exact .inr (.inl ⟨by simp [hx, hxs], he, hh2⟩)
    · exact .inr (.inr ⟨by simp [hx, hxs], he, hh2⟩)

/-- A state with an empty queue whose workers hold nothing with the given
id has no copy of it anywhere. -/
theorem locCount_zero_of (s' : OrchState) (id : String) (hq : s'.queue = [])
    (L R : List WorkerPhase) (hw : s'.workers = L ++ .stopped :: R)
    (hL : idCount id (heldTasks L) = 0) (hR : idCount id (heldTasks R) = 0) :
    locCount s' id = 0 := by
  unfold locCount
  rw [hq, idCount_nil, hw, heldTasks_middle, idCount_append, idCount_append,
    heldTasks_stopped, idCount_nil]
  omega

/-- One worker phase preserves the fatal-short-circuit invariant. -/
theorem inv7_step (args : EvalRunArgs) (env : AgentEnv) (s : OrchState) (i : ℕ)
    (h : Inv7 s) : Inv7 (workerStep args env s i) := by
  have hle : ∀ id, locCount (workerStep args env s i) id ≤ locCount s id :=
    fun id => locCount_step_le args env s i id
  rcases workerStep_shape args env s i with heq | ⟨L, R, hset, hcase⟩
  · rw [heq]
    exact h
  rcases hcase with ⟨m, hws, hf, heq⟩ | ⟨hws, hf, hq, heq⟩ | ⟨t, rest, hws, hf, hq, heq⟩ |
    ⟨t, m, hws, hf, heq⟩ | ⟨t, hws, hf, heq⟩ | ⟨t, hws, heq⟩
  · rw [heq] at hle ⊢
    exact inv7_preserve_qw s s.queue _ h hle (fun _ => h.fatalQueueEmpty (by rw [hf]; rfl))
  · rw [heq] at hle ⊢
    exact inv7_preserve_qw s s.queue _ h hle (fun _ => hq)
  · rw [heq] at hle ⊢
    exact inv7_preserve_qw s rest _ h hle
      (fun hfs => absurd hfs (by rw [hf]; simp))
  · rw [heq] at hle ⊢
    exact inv7_preserve_qw s s.queue _ h hle (fun _ => h.fatalQueueEmpty (by rw [hf]; rfl))
  · rw [heq] at hle ⊢
    exact inv7_preserve_qw s s.queue _ h hle (fun hfs => absurd hfs (by rw [hf]; simp))
  -- execution phase
  rw [heq] at hle ⊢
  have hheld : 1 ≤ locCount s t.run_id := by
    unfold locCount
    rw [hws, heldTasks_middle, idCount_append, idCount_append, heldTasks_running]
    have h1 : idCount t.run_id [t] = 1 := by simp [idCount_singleton]
    omega
  have hne : ∀ p1 : String, locCount s p1 = 0 → ¬t.run_id = p1 := by
    intro p1 hp1 he
    rw [he] at hheld
    omega
  have hlookups : ∀ p1 : String, ¬t.run_id = p1 →
      lookupR p1 (insertR t.run_id (execOut args env s t).result s.results) =
        lookupR p1 s.results := by
    intro p1 hne1
    rw [lookupR_insertR, if_neg hne1]
  have hloc0 : ∀ u ∈ s.queue,
      idCount u.run_id (heldTasks L) = 0 ∧ idCount u.run_id (heldTasks R) = 0 := by
    intro u hu
    have h1 : 1 ≤ idCount u.run_id s.queue := idCount_pos_of_mem u s.queue hu
    have h2 : locCount s u.run_id ≤ 1 := h.locOk u.run_id
    unfold locCount at h2
    rw [hws, heldTasks_middle, idCount_append, idCount_append] at h2
    omega
  rcases execStep_shape args env s i t with ⟨he, heq2⟩ | ⟨m, he, hf, heq2⟩ |
    ⟨he, hf, heq2⟩ | ⟨m, m0, he, hf, heq2⟩ | ⟨m, he, hf, heq2⟩ <;>
    rw [heq2] at hle ⊢ <;>
    unfold execBase at hle ⊢ <;>
    dsimp only at hle ⊢
  -- ret true
  · refine ⟨fun id => le_trans (hle id) (h.locOk id), ?_, ?_, ?_, ?_⟩
    · exact fun hfs => h.fatalQueueEmpty hfs
    · intro entries hmem
      rcases List.mem_append.mp hmem with hmem | hmem
      · exact h.drainFatal entries hmem
      · simp at hmem
    · refine ⟨?_, ?_⟩
      · rw [List.filterMap_append]
        simpa [fatalMsgOf] using h.fatalFirst.1
      · rw [List.filterMap_append]
        simpa [fatalMsgOf] using h.fatalFirst.2
    · intro h1 entries h2 hh p hp
      rcases split_middle_append _ _ _ _ _ hh with ⟨h2', hl, hh2⟩ | ⟨h1', hh1, hm⟩
      · obtain ⟨hc0, hlook, hnot⟩ := h.drainOk h1 entries h2' hl p hp
        refine ⟨by have := hle p.1; omega, ?_, ?_⟩
        · rw [hlookups p.1 (hne p.1 hc0)]
          exact hlook
        · rw [hh2]
          intro hmem
          rcases List.mem_append.mp hmem with hmem | hmem
          · exact hnot hmem
          · simp at hmem
            exact hne p.1 hc0 (by simpa using hmem.symm)
      · obtain ⟨-, habs, -⟩ := split_singleton hm
        simp at habs
  -- ret false under a set fatal flag
  · refine ⟨fun id => le_trans (hle id) (h.locOk id), ?_, ?_, ?_, ?_⟩
    · exact fun hfs => h.fatalQueueEmpty hfs
    · intro entries hmem
      rcases List.mem_append.mp hmem with hmem | hmem
      · exact h.drainFatal entries hmem
      · simp at hmem
    · refine ⟨?_, ?_⟩
      · rw [List.filterMap_append]
        simpa [fatalMsgOf] using h.fatalFirst.1
      · rw [List.filterMap_append]
        simpa [fatalMsgOf] using h.fatalFirst.2
    · intro h1 entries h2 hh p hp
      rcases split_middle_append _ _ _ _ _ hh with ⟨h2', hl, hh2⟩ | ⟨h1', hh1, hm⟩
      · obtain ⟨hc0, hlook, hnot⟩ := h.drainOk h1 entries h2' hl p hp
        refine ⟨by have := hle p.1; omega, ?_, ?_⟩
        · rw [hlookups p.1 (hne p.1 hc0)]
          exact hlook
        · rw [hh2]
          intro hmem
          rcases List.mem_append.mp hmem with hmem | hmem
          · exact hnot hmem
          · simp at hmem
            exact hne p.1 hc0 (by simpa using hmem.symm)
      · obtain ⟨-, habs, -⟩ := split_singleton hm
        simp at habs
  -- ret false with no fatal flag: re-enqueue
  · refine ⟨fun id => le_trans (hle id) (h.locOk id), ?_, ?_, ?_, ?_⟩
    · intro hfs
      exact absurd hfs (by rw [hf]; simp)
    · intro entries hmem
      rcases List.mem_append.mp hmem with hmem | hmem
      · exact h.drainFatal entries hmem
      · simp at hmem
    · refine ⟨?_, ?_⟩
      · rw [List.filterMap_append]
        simpa [fatalMsgOf, hf] using h.fatalFirst.1
      · rw [List.filterMap_append]
        simpa [fatalMsgOf] using h.fatalFirst.2
    · intro h1 entries h2 hh p hp
      rcases split_middle_append _ _ _ _ _ hh with ⟨h2', hl, hh2⟩ | ⟨h1', hh1, hm⟩
      · have hdm : OrchEvent.drainEvt entries ∈ s.hist := by
          rw [hl]
          simp
        have := h.drainFatal entries hdm
        rw [hf] at this
        simp at this
      · obtain ⟨-, habs, -⟩ := split_singleton hm
        simp at habs
  -- fatal raised while the flag was already set: drain only
  · refine ⟨fun id => le_trans (hle id) (h.locOk id), fun _ => rfl, fun _ _ => rfl, ?_, ?_⟩
    · have hfm : List.filterMap fatalMsgOf
          ((s.hist ++ [OrchEvent.execEvt t.run_id]) ++
            [OrchEvent.drainEvt (drainEntries args env s t)]) =
          List.filterMap fatalMsgOf s.hist := by
        rw [List.filterMap_append, List.filterMap_append]
        simp [fatalMsgOf]
      rw [hfm]
      refine ⟨?_, h.fatalFirst.2⟩
      have h0 := h.fatalFirst.1
      rw [hf] at h0
      exact h0
    · intro h1 entries h2 hh p hp
      rw [List.append_assoc] at hh
      simp only [List.cons_append, List.nil_append] at hh
      rcases split_middle_append _ _ _ _ _ hh with ⟨h2', hl, hh2⟩ | ⟨h1', hh1, hm⟩
      · obtain ⟨hc0, hlook, hnot⟩ := h.drainOk h1 entries h2' hl p hp
        refine ⟨by have := hle p.1; omega, ?_, ?_⟩
        · rw [hlookups p.1 (hne p.1 hc0)]
          exact hlook
        · rw [hh2]
          intro hmem
          rcases List.mem_append.mp hmem with hmem | hmem
          · exact hnot hmem
          · simp at hmem
            exact hne p.1 hc0 hmem.symm
      · rcases split_pair hm with ⟨-, habs, -⟩ | ⟨-, hev, hh2⟩
        · simp at habs
        · have hentries : entries = drainEntries args env s t :=
            OrchEvent.drainEvt.inj hev
          subst hentries
          subst hh2
          obtain ⟨u, hu, rfl⟩ := List.mem_map.mp hp
          obtain ⟨hL0, hR0⟩ := hloc0 u hu
          exact ⟨locCount_zero_of _ u.run_id rfl L R (hset .stopped) hL0 hR0, rfl,
            by simp⟩
  -- first fatal: set flag and drain
  · refine ⟨fun id => le_trans (hle id) (h.locOk id), fun _ => rfl, fun _ _ => rfl, ?_, ?_⟩
    · have hempty : List.filterMap fatalMsgOf s.hist = [] := by
        have h0 := h.fatalFirst.1
        rw [hf] at h0
        exact List.head?_eq_none_iff.mp h0.symm
      have hfm : List.filterMap fatalMsgOf
          ((s.hist ++ [OrchEvent.execEvt t.run_id]) ++
            [OrchEvent.fatalSetEvt m, OrchEvent.drainEvt (drainEntries args env s t)]) =
          [m] := by
        rw [List.filterMap_append, List.filterMap_append, hempty]
        simp [fatalMsgOf]
      rw [hfm]
      exact ⟨rfl, by simp⟩
    · intro h1 entries h2 hh p hp
      rw [List.append_assoc] at hh
      simp only [List.cons_append, List.nil_append] at hh
      rcases split_middle_append _ _ _ _ _ hh with ⟨h2', hl, hh2⟩ | ⟨h1', hh1, hm⟩
      · have hdm : OrchEvent.drainEvt entries ∈ s.hist := by
          rw [hl]
          simp
        have := h.drainFatal entries hdm
        rw [hf] at this
        simp at this
      · rcases split_triple hm with ⟨-, habs, -⟩ | ⟨-, habs, -⟩ | ⟨-, hev, hh2⟩
        · simp at habs
        · simp at habs
        · have hentries : entries = drainEntries args env s t :=
            OrchEvent.drainEvt.inj hev
          subst hentries
          subst hh2
          obtain ⟨u, hu, rfl⟩ := List.mem_map.mp hp
          obtain ⟨hL0, hR0⟩ := hloc0 u hu
          exact ⟨locCount_zero_of _ u.run_id rfl L R (hset .stopped) hL0 hR0, rfl,
            by simp⟩

theorem inv7_fold (args : EvalRunArgs) (env : AgentEnv) (sched : List ℕ) (s : OrchState)
    (h : Inv7 s) : Inv7 (sched.foldl (fun s i => workerStep args env s i) s) := by
  induction sched generalizing s with
  | nil => exact h
  | cons i rest ih => exact ih _ (inv7_step args env s i h)

theorem head_len_singleton {m : String} (l : List String) (hh : l.head? = some m)
    (hl : l.length ≤ 1) : l = [m] := by
  cases l with
  | nil => simp at hh
  | cons x xs =>
    simp at hh
    cases xs with
    | nil => rw [hh]
    | cons y ys => simp at hl

/-- C7: after a worker raises a fatal (auth-classified) error, the whole
pending queue is drained; every drained task is never executed afterwards
and its result entry (usually absent) stays exactly as it was at drain
time; the fatal flag retains only the first fatal message, and `run_eval`
surfaces that message to the caller together with (after) the final summary
flush.  The statement quantifies over every interleaving schedule of the
worker pool; in-flight tasks of other workers still finish, matching the
pool semantics. -/
theorem fatal_short_circuit (args : EvalRunArgs) (env : AgentEnv)
    (problems : List ForecastProblem) (sched : List ℕ)
    (hnodup : (problems.map (·.run_id)).Nodup) :
    (∀ h1 entries h2,
      (orchRun args env problems sched).hist = h1 ++ OrchEvent.drainEvt entries :: h2 →
      ∀ p ∈ entries, OrchEvent.execEvt p.1 ∉ h2 ∧
        lookupR p.1 (orchRun args env problems sched).results = p.2) ∧
    ((orchRun args env problems sched).fatal.isSome = true →
      (orchRun args env problems sched).queue = []) ∧
    (∀ m, (orchRun args env problems sched).fatal = some m →
      ((orchRun args env problems sched).hist.filterMap fatalMsgOf) = [m] ∧
      run_eval args env problems sched =
        (summaryOf (orchRun args env problems sched), .error m)) := by
  have hinv : Inv7 (orchRun args env problems sched) :=
    inv7_fold args env sched (initState args problems) (inv7_init args problems hnodup)
  refine ⟨?_, hinv.fatalQueueEmpty, ?_⟩
  · intro h1 entries h2 hh p hp
    obtain ⟨-, hlook, hnot⟩ := hinv.drainOk h1 entries h2 hh p hp
    exact ⟨hnot, hlook⟩
  · intro m hm
    constructor
    · have h1 := hinv.fatalFirst.1
      rw [hm] at h1
      exact head_len_singleton _ h1.symm hinv.fatalFirst.2
    · show (summaryOf (orchRun args env problems sched),
        match (orchRun args env problems sched).fatal with
        | some m => Except.error m
        | none => Except.ok (orchRun args env problems sched).results) = _
      rw [hm]

def c7Args : EvalRunArgs := ⟨1, 0, 0, [], 0⟩

def c7Problems : List ForecastProblem :=
  [⟨"r1", "T1", ["A", "B"], 0⟩, ⟨"r2", "T2", ["A", "B"], 0⟩]

def c7Env : AgentEnv := fun id _ =>
  if id = "r1" then ⟨.ok (), .error ⟨.searchAuthError, "invalid api key"⟩, true, Cost.zero⟩
  else ⟨.ok (), .error ⟨.other "ValueError", "boom"⟩, true, Cost.zero⟩

theorem fatal_short_circuit_witness :
    ((c7Problems.map (·.run_id)).Nodup ∧
      (orchRun c7Args c7Env c7Problems [0, 0, 0]).fatal =
        some "Run r1 failed with auth error: invalid api key") ∧
    run_eval c7Args c7Env c7Problems [0, 0, 0] =
      (summaryOf (orchRun c7Args c7Env c7Problems [0, 0, 0]),
       .error "Run r1 failed with auth error: invalid api key") :=
  ⟨⟨by decide, by decide⟩,
   ((fatal_short_circuit c7Args c7Env c7Problems [0, 0, 0] (by decide)).2.2
      "Run r1 failed with auth error: invalid api key" (by decide)).2⟩

/-! ## Invariant for summary consistency (claim C8) -/

theorem exists_mem_of_idCount_pos (id : String) (q : List ForecastProblem)
    (h : 1 ≤ idCount id q) : ∃ u ∈ q, u.run_id = id := by
  induction q with
  | nil => simp [idCount] at h
  | cons a rest ih =>
    rw [idCount_cons] at h
    by_cases ha : a.run_id = id
    · exact ⟨a, by simp, ha⟩
    · rw [if_neg ha] at h
      obtain ⟨u, hu, hid⟩ := ih (by omega)
      exact ⟨u, by simp [hu], hid⟩

theorem others_zero (s : OrchState) (L R : List WorkerPhase) (t : ForecastProblem)
    (hws : s.workers = L ++ .running t :: R) (hlocOk : ∀ id, locCount s id ≤ 1) :
    idCount t.run_id s.queue = 0 ∧ idCount t.run_id (heldTasks L) = 0 ∧
      idCount t.run_id (heldTasks R) = 0 := by
  have h2 := hlocOk t.run_id
  unfold locCount at h2
  rw [hws, heldTasks_middle, idCount_append, idCount_append, heldTasks_running] at h2
  have h1 : idCount t.run_id [t] = 1 := by simp [idCount_singleton]
  omega

/-- Bookkeeping invariant of the orchestration state: the shared total cost
equals the sum of the entry costs; every entry is keyed by its own
`run_id`, keys are unique; entries of tasks still in flight carry no cost
yet; and the key set is exactly the resumed entries plus the executed
tasks. -/
structure Inv8 (initialKeys : List String) (s : OrchState) : Prop where
  locOk : ∀ id, locCount s id ≤ 1
  keyedWf : ∀ kv ∈ s.results, kv.2.run_id = kv.1
  keysNodup : (keysR s.results).Nodup
  totalEq : s.totalCost = sumCosts s.results
  pendingZero : ∀ id, 1 ≤ locCount s id →
    ∀ e, lookupR id s.results = some e → e.cost.total = 0
  keysChar : ∀ id, id ∈ keysR s.results ↔
    (id ∈ initialKeys ∨ OrchEvent.execEvt id ∈ s.hist)

theorem inv8_init (args : EvalRunArgs) (problems : List ForecastProblem)
    (hnodup : (problems.map (·.run_id)).Nodup)
    (hdisj : ∀ t ∈ problems, t.run_id ∉ keysR args.initial_results)
    (hkeys0 : (keysR args.initial_results).Nodup)
    (hwf0 : ∀ kv ∈ args.initial_results, kv.2.run_id = kv.1)
    (hinit : args.initial_total_cost = sumCosts args.initial_results) :
    Inv8 (keysR args.initial_results) (initState args problems) := by
  refine ⟨?_, hwf0, hkeys0, hinit, ?_, ?_⟩
  · intro id
    unfold locCount initState
    dsimp only
    rw [heldTasks_replicate_top, idCount_nil]
    simpa using idCount_le_one_of_nodup id problems hnodup
  · intro id hge e hlk
    exfalso
    have hge' : 1 ≤ idCount id problems := by
      unfold locCount initState at hge
      dsimp only at hge
      rw [heldTasks_replicate_top, idCount_nil] at hge
      omega
    obtain ⟨u, hu, hid⟩ := exists_mem_of_idCount_pos id problems hge'
    have hnone : lookupR id args.initial_results = none :=
      (lookupR_eq_none_iff id args.initial_results).mpr (hid ▸ hdisj u hu)
    have hsame : (initState args problems).results = args.initial_results := rfl
    rw [hsame, hnone] at hlk
    simp at hlk
  · intro id
    simp [initState]

/-- Preservation of `Inv8` under a step that only moves tasks between the
queue and the workers. -/
theorem inv8_preserve_qw (K : List String) (s : OrchState)
    (q' : List ForecastProblem) (ws' : List WorkerPhase) (h : Inv8 K s)
    (hle : ∀ id, locCount { s with queue := q', workers := ws' } id ≤ locCount s id)
    (hge : ∀ id, 1 ≤ locCount { s with queue := q', workers := ws' } id →
      1 ≤ locCount s id) :
    Inv8 K { s with queue := q', workers := ws' } := by
  refine ⟨fun id => le_trans (hle id) (h.locOk id), h.keyedWf, h.keysNodup, h.totalEq,
    ?_, h.keysChar⟩
  intro id hg e hlk
  exact h.pendingZero id (hge id hg) e hlk

theorem lookupR_mem (k : String) (e : RunResult) (l : List (String × RunResult))
    (h : lookupR k l = some e) : (k, e) ∈ l := by
  induction l with
  | nil => simp [lookupR] at h
  | cons a rest ih =>
    obtain ⟨a1, a2⟩ := a
    by_cases ha : a1 = k
    · rw [lookupR, if_pos ha] at h
      have he : a2 = e := by simpa using h
      subst he
      subst ha
      simp
  
    · rw [lookupR, if_neg ha] at h
      exact List.mem_cons.mpr (.inr (ih h))

/-- The entry written back for a task is keyed by that task's run_id,
provided the existing entries are well keyed. -/
theorem execOut_run_id (args : EvalRunArgs) (env : AgentEnv) (s : OrchState)
    (t : ForecastProblem) (hwf : ∀ kv ∈ s.results, kv.2.run_id = kv.1) :
    (execOut args env s t).result.run_id = t.run_id := by
  have hexist : (mkProcInput args s t (env t.run_id (attemptIndex s.hist t.run_id))).existing
      = lookupR t.run_id s.results := rfl
  unfold execOut
  rw [pp_result_run_id]
  unfold initialResult
  dsimp only
  rw [hexist]
  cases hex : lookupR t.run_id s.results with
  | none => rfl
  | some e0 =>
    have hmem := lookupR_mem t.run_id e0 s.results hex
    simpa using hwf (t.run_id, e0) hmem

/-- After an execution the updated shared total cost again equals the sum
of the written-back entry costs, provided the pre-state was consistent and
the running task's entry (if any) carried no cost yet. -/
theorem execOut_total (args : EvalRunArgs) (env : AgentEnv) (s : OrchState)
    (t : ForecastProblem) (htotal : s.totalCost = sumCosts s.results)
    (hpz : ∀ e, lookupR t.run_id s.results = some e → e.cost.total = 0) :
    (execOut args env s t).totalCost =
      sumCosts (insertR t.run_id (execOut args env s t).result s.results) := by
  have htc : (mkProcInput args s t (env t.run_id (attemptIndex s.hist t.run_id))).totalCost
      = s.totalCost := rfl
  have hexist : (mkProcInput args s t (env t.run_id (attemptIndex s.hist t.run_id))).existing
      = lookupR t.run_id s.results := rfl
  unfold execOut
  rcases pp_cost_char (mkProcInput args s t (env t.run_id (attemptIndex s.hist t.run_id)))
    with ⟨hT, hC⟩ | hT
  · rw [hT, htc, htotal]
    cases hex : lookupR t.run_id s.results with
    | none =>
      rw [sumCosts_insertR_none _ _ _ hex]
      have hv : (process_problem (mkProcInput args s t
          (env t.run_id (attemptIndex s.hist t.run_id)))).result.cost.total = 0 := by
        rw [hC]
        unfold initialResult
        dsimp only
        rw [hexist, hex]
        rfl
      rw [hv]
      ring
    | some e0 =>
      have hsum := sumCosts_insertR_some t.run_id (process_problem (mkProcInput args s t
        (env t.run_id (attemptIndex s.hist t.run_id)))).result e0 s.results hex
      have hv : (process_problem (mkProcInput args s t
          (env t.run_id (attemptIndex s.hist t.run_id)))).result.cost.total
          = e0.cost.total := by
        rw [hC]
        unfold initialResult
        dsimp only
        rw [hexist, hex]
        rfl
      rw [hv] at hsum
      linarith
  · rw [hT, htc, htotal]
    cases hex : lookupR t.run_id s.results with
    | none =>
      rw [sumCosts_insertR_none _ _ _ hex]
    | some e0 =>
      have hsum := sumCosts_insertR_some t.run_id (process_problem (mkProcInput args s t
        (env t.run_id (attemptIndex s.hist t.run_id)))).result e0 s.results hex
      rw [hpz e0 hex] at hsum
      linarith

/-- On a retry (`done = false`) the written-back entry still carries no
cost. -/
theorem execOut_retry_cost (args : EvalRunArgs) (env : AgentEnv) (s : OrchState)
    (t : ForecastProblem)
    (hpz : ∀ e, lookupR t.run_id s.results = some e → e.cost.total = 0)
    (hret : (execOut args env s t).exit = .ret false) :
    (execOut args env s t).result.cost.total = 0 := by
  have hexist : (mkProcInput args s t (env t.run_id (attemptIndex s.hist t.run_id))).existing
      = lookupR t.run_id s.results := rfl
  unfold execOut at hret ⊢
  obtain ⟨hres, -, -⟩ := pp_ret_false_char _ hret
  rw [hres]
  unfold initialResult
  dsimp only
  rw [hexist]
  cases hex : lookupR t.run_id s.results with
  | none => rfl
  | some e0 => simpa using hpz e0 hex

/-- `Inv8` is preserved by every worker step. -/
theorem inv8_step (K : List String) (args : EvalRunArgs) (env : AgentEnv)
    (s : OrchState) (i : ℕ) (h : Inv8 K s) : Inv8 K (workerStep args env s i) := by
  have hle : ∀ id, locCount (workerStep args env s i) id ≤ locCount s id :=
    fun id => locCount_step_le args env s i id
  rcases workerStep_shape args env s i with heq | ⟨L, R, hset, hcase⟩
  · rw [heq]
    exact h
  rcases hcase with ⟨m, hws, hf, heq⟩ | ⟨hws, hf, hq, heq⟩ | ⟨t, rest, hws, hf, hq, heq⟩ |
    ⟨t, m, hws, hf, heq⟩ | ⟨t, hws, hf, heq⟩ | ⟨t, hws, heq⟩
  · rw [heq] at hle ⊢
    exact inv8_preserve_qw K s s.queue _ h hle (fun id hg => le_trans hg (hle id))
  · rw [heq] at hle ⊢
    exact inv8_preserve_qw K s s.queue _ h hle (fun id hg => le_trans hg (hle id))
  · rw [heq] at hle ⊢
    exact inv8_preserve_qw K s rest _ h hle (fun id hg => le_trans hg (hle id))
  · rw [heq] at hle ⊢
    exact inv8_preserve_qw K s s.queue _ h hle (fun id hg => le_trans hg (hle id))
  · rw [heq] at hle ⊢
    exact inv8_preserve_qw K s s.queue _ h hle (fun id hg => le_trans hg (hle id))
  -- execution phase
  rw [heq] at hle ⊢
  have hheld : 1 ≤ locCount s t.run_id := by
    unfold locCount
    rw [hws, heldTasks_middle, idCount_append, idCount_append, heldTasks_running]
    have h1 : idCount t.run_id [t] = 1 := by simp [idCount_singleton]
    omega
  obtain ⟨hq0, hL0, hR0⟩ := others_zero s L R t hws h.locOk
  have hwf2 : ∀ kv ∈ insertR t.run_id (execOut args env s t).result s.results,
      kv.2.run_id = kv.1 := by
    intro kv hkv
    rcases mem_insertR kv t.run_id _ s.results hkv with hkv | hkv
    · rw [hkv]
      exact execOut_run_id args env s t h.keyedWf
    · exact h.keyedWf kv hkv
  have hnd2 : (keysR (insertR t.run_id (execOut args env s t).result s.results)).Nodup :=
    nodup_keysR_insertR _ _ _ h.keysNodup
  have htot : (execOut args env s t).totalCost =
      sumCosts (insertR t.run_id (execOut args env s t).result s.results) :=
    execOut_total args env s t h.totalEq (fun e he => h.pendingZero t.run_id hheld e he)
  have hkc2 : ∀ id, id ∈ keysR (insertR t.run_id (execOut args env s t).result s.results)
      ↔ (id ∈ K ∨ OrchEvent.execEvt id ∈ s.hist ∨ id = t.run_id) := by
    intro id
    rw [mem_keysR_insertR, h.keysChar id]
    tauto
  rcases execStep_shape args env s i t with ⟨he, heq2⟩ | ⟨m, he, hf, heq2⟩ |
    ⟨he, hf, heq2⟩ | ⟨m, m0, he, hf, heq2⟩ | ⟨m, he, hf, heq2⟩ <;>
    rw [heq2] at hle ⊢ <;>
    unfold execBase at hle ⊢ <;>
    dsimp only at hle ⊢
  -- ret true
  · refine ⟨fun id => le_trans (hle id) (h.locOk id), hwf2, hnd2, htot, ?_, ?_⟩
    · intro id hg e2 hlk
      by_cases hid : t.run_id = id
      · exfalso
        subst hid
        unfold locCount at hg
        dsimp only at hg
        rw [hset, heldTasks_middle, idCount_append, idCount_append, heldTasks_top,
          idCount_nil] at hg
        omega
      · rw [lookupR_insertR, if_neg hid] at hlk
        exact h.pendingZero id (le_trans hg (hle id)) e2 hlk
    · intro id
      rw [hkc2 id]
      simp only [List.mem_append, List.mem_singleton, OrchEvent.execEvt.injEq]
  -- ret false under a set fatal flag
  · refine ⟨fun id => le_trans (hle id) (h.locOk id), hwf2, hnd2, htot, ?_, ?_⟩
    · intro id hg e2 hlk
      by_cases hid : t.run_id = id
      · exfalso
        subst hid
        unfold locCount at hg
        dsimp only at hg
        rw [hset, heldTasks_middle, idCount_append, idCount_append, heldTasks_top,
          idCount_nil] at hg
        omega
      · rw [lookupR_insertR, if_neg hid] at hlk
        exact h.pendingZero id (le_trans hg (hle id)) e2 hlk
    · intro id
      rw [hkc2 id]
      simp only [List.mem_append, List.mem_singleton, OrchEvent.execEvt.injEq]
  -- ret false with no fatal flag: re-enqueue
  · refine ⟨fun id => le_trans (hle id) (h.locOk id), hwf2, hnd2, htot, ?_, ?_⟩
    · intro id hg e2 hlk
      by_cases hid : t.run_id = id
      · subst hid
        rw [lookupR_insertR, if_pos rfl] at hlk
        have hv := Option.some.inj hlk
        rw [← hv]
        exact execOut_retry_cost args env s t
          (fun e he2 => h.pendingZero t.run_id hheld e he2) he
      · rw [lookupR_insertR, if_neg hid] at hlk
        exact h.pendingZero id (le_trans hg (hle id)) e2 hlk
    · intro id
      rw [hkc2 id]
      simp only [List.mem_append, List.mem_singleton, OrchEvent.execEvt.injEq]
  -- fatal raised while the flag was already set: drain only
  · refine ⟨fun id => le_trans (hle id) (h.locOk id), hwf2, hnd2, htot, ?_, ?_⟩
    · intro id hg e2 hlk
      by_cases hid : t.run_id = id
      · exfalso
        subst hid
        unfold locCount at hg
        dsimp only at hg
        rw [hset, heldTasks_middle, idCount_append, idCount_append, heldTasks_stopped,
          idCount_nil] at hg
        omega
      · rw [lookupR_insertR, if_neg hid] at hlk
        exact h.pendingZero id (le_trans hg (hle id)) e2 hlk
    · intro id
      rw [hkc2 id]
      simp [List.mem_append]
  -- first fatal: set flag and drain
  · refine ⟨fun id => le_trans (hle id) (h.locOk id), hwf2, hnd2, htot, ?_, ?_⟩
    · intro id hg e2 hlk
      by_cases hid : t.run_id = id
      · exfalso
        subst hid
        unfold locCount at hg
        dsimp only at hg
        rw [hset, heldTasks_middle, idCount_append, idCount_append, heldTasks_stopped,
          idCount_nil] at hg
        omega
      · rw [lookupR_insertR, if_neg hid] at hlk
        exact h.pendingZero id (le_trans hg (hle id)) e2 hlk
    · intro id
      rw [hkc2 id]
      simp [List.mem_append]

theorem inv8_fold (K : List String) (args : EvalRunArgs) (env : AgentEnv)
    (sched : List ℕ) (s : OrchState) (h : Inv8 K s) :
    Inv8 K (sched.foldl (fun s i => workerStep args env s i) s) := by
  induction sched generalizing s with
  | nil => exact h
  | cons j rest ih => exact ih (workerStep args env s j) (inv8_step K args env s j h)

theorem runs_ids (l : List (String × RunResult))
    (hwf : ∀ kv ∈ l, kv.2.run_id = kv.1) :
    (l.map Prod.snd).map (fun r => r.run_id) = keysR l := by
  induction l with
  | nil => rfl
  | cons a rest ih =>
    simp only [List.map_cons, keysR_cons]
    rw [hwf a (by simp), ih (fun kv hkv => hwf kv (by simp [hkv]))]

theorem runs_costs (l : List (String × RunResult)) :
    ((l.map Prod.snd).map (fun r => r.cost.total)).sum = sumCosts l := by
  rw [List.map_map]
  rfl

/-- C8: whenever every task has reached a terminal state (the queue is
empty and all workers have exited) and the run's seeded total cost equals
the sum of the seeded entries' `cost.total` (the seeded run_ids being
unique, well keyed, and disjoint from the input tasks, as `load_problems`,
`load_existing_summary` and the resume filter guarantee), the summary
written by `_write_summary` satisfies: `total_cost` equals the sum of
`cost.total` over all entries of `runs`, and `runs` contains exactly one
entry per distinct run_id attempted so far — its run_ids are unique and are
exactly the seeded run_ids together with the run_ids whose execution was
started. -/
theorem summary_consistency (args : EvalRunArgs) (env : AgentEnv)
    (problems : List ForecastProblem) (sched : List ℕ)
    (hnodup : (problems.map (·.run_id)).Nodup)
    (hdisj : ∀ t ∈ problems, t.run_id ∉ keysR args.initial_results)
    (hkeys0 : (keysR args.initial_results).Nodup)
    (hwf0 : ∀ kv ∈ args.initial_results, kv.2.run_id = kv.1)
    (hinit : args.initial_total_cost = sumCosts args.initial_results)
    (hterm : (orchRun args env problems sched).queue = [] ∧
      allStopped (orchRun args env problems sched)) :
    (summaryOf (orchRun args env problems sched)).total_cost =
      ((summaryOf (orchRun args env problems sched)).runs.map
        (fun r => r.cost.total)).sum ∧
    ((summaryOf (orchRun args env problems sched)).runs.map
      (fun r => r.run_id)).Nodup ∧
    ∀ id, id ∈ (summaryOf (orchRun args env problems sched)).runs.map
        (fun r => r.run_id) ↔
      (id ∈ keysR args.initial_results ∨
        OrchEvent.execEvt id ∈ (orchRun args env problems sched).hist) := by
  have hinv : Inv8 (keysR args.initial_results) (orchRun args env problems sched) :=
    inv8_fold _ args env sched _ (inv8_init args problems hnodup hdisj hkeys0 hwf0 hinit)
  unfold summaryOf
  dsimp only
  refine ⟨?_, ?_, ?_⟩
  · rw [runs_costs]
    exact hinv.totalEq
  · rw [runs_ids _ hinv.keyedWf]
    exact hinv.keysNodup
  · intro id
    rw [runs_ids _ hinv.keyedWf]
    exact hinv.keysChar id

def c8Args : EvalRunArgs := ⟨1, 0, 0, [], 0⟩

def c8Problems : List ForecastProblem :=
  [⟨"a1", "Q1", ["A", "B"], 0⟩, ⟨"a2", "Q2", ["A", "B"], 0⟩]

def c8Env : AgentEnv := fun _ _ =>
  ⟨.ok (), .error ⟨.other "ValueError", "boom"⟩, true, Cost.zero⟩

def c8Sched : List ℕ := [0, 0, 0, 0, 0, 0, 0]

theorem summary_consistency_witness :
    (summaryOf (orchRun c8Args c8Env c8Problems c8Sched)).total_cost =
      ((summaryOf (orchRun c8Args c8Env c8Problems c8Sched)).runs.map
        (fun r => r.cost.total)).sum ∧
    ((summaryOf (orchRun c8Args c8Env c8Problems c8Sched)).runs.map
      (fun r => r.run_id)).Nodup ∧
    ∀ id, id ∈ (summaryOf (orchRun c8Args c8Env c8Problems c8Sched)).runs.map
        (fun r => r.run_id) ↔
      (id ∈ keysR c8Args.initial_results ∨
        OrchEvent.execEvt id ∈ (orchRun c8Args c8Env c8Problems c8Sched).hist) :=
  summary_consistency c8Args c8Env c8Problems c8Sched (by decide) (by decide)
    (by decide) (by decide) rfl (by decide)
